import Mathlib

/-!
Verification of the statement-execution engine of a small SQL database
(`src/main.rs`, function `process_command` and its data model).

Shallow embedding conventions:
- Rust `i64` is modelled as `Int`; the `as u32` cast is modelled as `% 2^32`
  taken at the cast site, exactly where the source truncates; the `u32`
  increment `last_id + 1` is likewise modelled as `(last_id + 1) % 2^32`,
  the release-build overflow semantics (a debug build panics at the wrap).
- Rust `f64` literals reaching the engine come from decimal numerals; they are
  modelled as exact rationals (`ℚ`), and `f64` display/debug formatting is
  modelled by exact decimal rendering of those rationals.
- `BTreeMap<u32, Row>` is modelled as an association list kept sorted by key
  (insertion preserves order, as the B-tree does); `BTreeMap<String, Value>`
  and `HashMap<String, Table>` are modelled as association lists with
  replace-on-insert, since the engine never iterates them in key order.
- `Result<String, String>` is modelled by `ExecResult`; the extra
  `ExecResult.panic` value marks the one reachable out-of-bounds index in the
  source (`select.from[0]` on an empty FROM list, and `assignment.id[0]` on an
  empty assignment target), where the Rust process aborts instead of
  returning.
-/

namespace RustSqlite

/-- The `Value` enum: tagged scalar union stored in rows. Derived `PartialEq`
in Rust is structural equality (note `Null == Null` is `true` there), which
coincides with Lean's `=` on this type. -/
inductive Value where
  | Integer (i : Int)
  | Float (q : ℚ)
  | Text (s : String)
  | Bool (b : Bool)
  | Null
deriving DecidableEq

/-- A stored row: `pub id: u32` and `pub data: BTreeMap<String, Value>`. -/
structure Row where
  id : Nat
  data : List (String × Value)
deriving DecidableEq

/-- A table: name, `(column name, declared type)` list in declaration order,
unique-flagged column names, rows keyed by id (sorted association list), and
the `last_id` counter. -/
structure Table where
  name : String
  columns : List (String × String)
  unique_columns : List String
  data : List (Nat × Row)
  last_id : Nat
deriving DecidableEq

/-- The database: `tables: HashMap<String, Table>`. -/
structure Database where
  tables : List (String × Table)
deriving DecidableEq

/-- Lookup in a string-keyed association list (`HashMap::get` / `BTreeMap::get`). -/
def assocGet {α : Type} (m : List (String × α)) (k : String) : Option α :=
  match m with
  | [] => none
  | p :: rest => if p.1 = k then some p.2 else assocGet rest k

/-- Replace-or-append insertion (`HashMap::insert` / string `BTreeMap::insert`). -/
def assocInsert {α : Type} (m : List (String × α)) (k : String) (v : α) :
    List (String × α) :=
  match m with
  | [] => [(k, v)]
  | p :: rest => if p.1 = k then (k, v) :: rest else p :: assocInsert rest k v

/-- `BTreeMap<u32, _>::get`. -/
def btreeGet {α : Type} (m : List (Nat × α)) (k : Nat) : Option α :=
  match m with
  | [] => none
  | p :: rest => if p.1 = k then some p.2 else btreeGet rest k

/-- `BTreeMap<u32, _>::insert`: keeps the list sorted by key, replacing an
equal key. -/
def btreeInsert {α : Type} (m : List (Nat × α)) (k : Nat) (v : α) :
    List (Nat × α) :=
  match m with
  | [] => [(k, v)]
  | p :: rest =>
    if k < p.1 then (k, v) :: p :: rest
    else if k = p.1 then (k, v) :: rest
    else p :: btreeInsert rest k v

/-- `BTreeMap<u32, _>::remove` (by key). -/
def btreeRemove {α : Type} : List (Nat × α) → Nat → List (Nat × α)
  | [], _ => []
  | p :: rest, k => if p.1 = k then btreeRemove rest k else p :: btreeRemove rest k

/-- `BTreeMap::values()`: values in key order. -/
def btreeValues {α : Type} (m : List (Nat × α)) : List α :=
  m.map (fun p => p.2)

/-! ### Numeric literal parsing (`str::parse` with `unwrap_or(0)` / `unwrap_or(0.0)`) -/

/-- `String::contains(char)`, over the character list (kernel-reducible). -/
def containsChar (s : String) (c : Char) : Bool :=
  s.toList.contains c

/-- `str::to_lowercase()` for the ASCII identifiers compared here, over the
character list (kernel-reducible). -/
def toLowerStr (s : String) : String :=
  String.mk (s.toList.map Char.toLower)

def digitsVal (cs : List Char) : Nat :=
  cs.foldl (fun a c => a * 10 + (c.toNat - 48)) 0

def allDigits (cs : List Char) : Bool :=
  cs.all (fun c => c.isDigit)

def digitsToNat (cs : List Char) : Option Nat :=
  if cs.isEmpty then none
  else if allDigits cs then some (digitsVal cs) else none

/-- `n.parse::<i64>().unwrap_or(0)`: optional sign, decimal digits, i64 range. -/
def parseI64 (n : String) : Int :=
  let cs := n.toList
  let sd : Int × List Char :=
    match cs with
    | '-' :: r => (-1, r)
    | '+' :: r => (1, r)
    | _ => (1, cs)
  match digitsToNat sd.2 with
  | none => 0
  | some m =>
    let v : Int := sd.1 * (m : Int)
    if -(2 ^ 63) ≤ v ∧ v ≤ 2 ^ 63 - 1 then v else 0

/-- `n.parse::<u32>().unwrap_or(0)`: optional plus sign, decimal digits, u32 range. -/
def parseU32 (n : String) : Nat :=
  let cs := n.toList
  let ds := match cs with
    | '+' :: r => r
    | _ => cs
  match digitsToNat ds with
  | none => 0
  | some m => if m < 2 ^ 32 then m else 0

/-- Split a character list at the first `e`/`E` (exponent marker). -/
def splitExp : List Char → List Char × Option (List Char)
  | [] => ([], none)
  | c :: cs =>
    if c = 'e' ∨ c = 'E' then ([], some cs)
    else
      let r := splitExp cs
      (c :: r.1, r.2)

/-- Split a character list at the first `.` (decimal point). -/
def splitDot : List Char → List Char × Option (List Char)
  | [] => ([], none)
  | c :: cs =>
    if c = '.' then ([], some cs)
    else
      let r := splitDot cs
      (c :: r.1, r.2)

/-- Mantissa of a decimal float literal: digits with at most one point, at
least one digit overall. -/
def parseMantissa (cs : List Char) : Option ℚ :=
  let r := splitDot cs
  match r.2 with
  | none => (digitsToNat r.1).map (fun m => (m : ℚ))
  | some fp =>
    if (r.1 ++ fp).isEmpty then none
    else if allDigits r.1 ∧ allDigits fp then
      some ((digitsVal r.1 : ℚ) + (digitsVal fp : ℚ) / (10 : ℚ) ^ fp.length)
    else none

def parseExpPart (cs : List Char) : Option Int :=
  let sd : Int × List Char :=
    match cs with
    | '-' :: r => (-1, r)
    | '+' :: r => (1, r)
    | _ => (1, cs)
  (digitsToNat sd.2).map (fun m => sd.1 * (m : Int))

/-- `n.parse::<f64>().unwrap_or(0.0)`, modelled exactly over ℚ for decimal
(optionally signed, optionally exponent) numerals; the f64 rounding step is
not modelled. -/
def parseF64 (n : String) : ℚ :=
  let cs := n.toList
  let sd : ℚ × List Char :=
    match cs with
    | '-' :: r => (-1, r)
    | '+' :: r => (1, r)
    | _ => (1, cs)
  let me := splitExp sd.2
  match parseMantissa me.1, me.2 with
  | some q, none => sd.1 * q
  | some q, some ecs =>
    match parseExpPart ecs with
    | some e => sd.1 * q * (10 : ℚ) ^ e
    | none => 0
  | none, _ => 0

/-! ### Value rendering (`Display`/`Debug` of the stored values) -/

/-- Multiplicity of prime `p` in `n` (fuel-bounded helper for decimal rendering). -/
def multOfAux (p : Nat) : Nat → Nat → Nat
  | 0, _ => 0
  | fuel + 1, n => if 1 < p ∧ 0 < n ∧ n % p = 0 then multOfAux p fuel (n / p) + 1 else 0

def multOf (p n : Nat) : Nat := multOfAux p n n

def padZeros (s : String) (k : Nat) : String :=
  if s.length < k then String.mk (List.replicate (k - s.length) '0') ++ s else s

/-- Decimal rendering of a rational with a `2^a * 5^b` denominator; models the
`Display` of the `f64` values reachable from decimal literals (Rust prints
`5` for `5.0_f64` with `{}`). -/
def floatToString (q : ℚ) : String :=
  if q.den = 1 then toString q.num
  else
    let a := multOf 2 q.den
    let b := multOf 5 q.den
    let k := max a b
    if q.den = 2 ^ a * 5 ^ b then
      let scaled := q.num.natAbs * 10 ^ k / q.den
      let ipart := scaled / 10 ^ k
      let fpart := scaled % 10 ^ k
      (if q.num < 0 then "-" else "") ++ toString ipart ++ "." ++ padZeros (toString fpart) k
    else toString q.num ++ "/" ++ toString q.den

/-- `{:?}` of an `f64`: as `Display`, but an integral value keeps `.0`. -/
def floatDebugString (q : ℚ) : String :=
  if q.den = 1 then toString q.num ++ ".0" else floatToString q

/-- The `Display`-style rendering used by the non-join SELECT branch
(`i.to_string()`, `f.to_string()`, `t.clone()`, `b.to_string()`, `"NULL"`). -/
def displayValue : Value → String
  | .Integer i => toString i
  | .Float q => floatToString q
  | .Text t => t
  | .Bool b => if b then "true" else "false"
  | .Null => "NULL"

/-- The `{:?}` (derived `Debug`) rendering used by the join branch and by
error messages. String escaping inside `Text` is not modelled (the text is
emitted verbatim between the quotes). -/
def debugValue : Value → String
  | .Integer i => "Integer(" ++ toString i ++ ")"
  | .Float q => "Float(" ++ floatDebugString q ++ ")"
  | .Text t => "Text(\"" ++ t ++ "\")"
  | .Bool b => "Bool(" ++ (if b then "true" else "false") ++ ")"
  | .Null => "Null"

/-! ### The statement AST (the `sqlparser` shapes the engine inspects) -/

/-- `sqlparser::ast::Value` restricted to the variants the engine matches on;
`OtherValue` stands for every other variant. -/
inductive SqlValue where
  | Number (n : String)
  | SingleQuotedString (s : String)
  | Boolean (b : Bool)
  | Null
  | OtherValue
deriving DecidableEq

inductive BinOp where
  | Eq
  | OtherOp
deriving DecidableEq

/-- `sqlparser::ast::Expr` restricted to the shapes the engine matches on. -/
inductive Expr where
  | Value (v : SqlValue)
  | Identifier (name : String)
  | CompoundIdentifier (parts : List String)
  | BinaryOp (left : Expr) (op : BinOp) (right : Expr)
  | OtherExpr
deriving DecidableEq

/-- `sqlparser::ast::DataType` restricted to the matched variants; `Other`
carries the `{:?}` rendering used in the error message. -/
inductive SqlType where
  | Int
  | Float
  | Text
  | Boolean
  | Bool
  | Other (repr : String)
deriving DecidableEq

inductive ColOption where
  | Unique
  | OtherOption
deriving DecidableEq

structure ColumnDef where
  name : String
  data_type : SqlType
  options : List ColOption
deriving DecidableEq

inductive TableFactor where
  | Table (name : String)
  | OtherFactor
deriving DecidableEq

inductive JoinConstraint where
  | On (e : Expr)
  | OtherConstraint
deriving DecidableEq

inductive JoinOperator where
  | Inner (c : JoinConstraint)
  | OtherJoinOp
deriving DecidableEq

structure Join where
  relation : TableFactor
  join_operator : JoinOperator
deriving DecidableEq

structure TableWithJoins where
  relation : TableFactor
  joins : List Join
deriving DecidableEq

inductive SelectItem where
  | Wildcard
  | UnnamedExpr (e : Expr)
  | OtherItem
deriving DecidableEq

structure Select where
  projection : List SelectItem
  from_ : List TableWithJoins
deriving DecidableEq

inductive SetExpr where
  | Select (s : Select)
  | Values (rows : List (List Expr))
  | OtherSetExpr
deriving DecidableEq

/-- `Query { body, .. }`. -/
structure QueryBox where
  body : SetExpr
deriving DecidableEq

structure Assignment where
  id : List String
  value : Expr
deriving DecidableEq

/-- `sqlparser::ast::Statement` restricted to the matched variants. -/
inductive Stmt where
  | CreateTable (name : String) (columns : List ColumnDef)
  | Insert (table_name : String) (source : QueryBox)
  | Query (query : QueryBox)
  | Delete (from_ : List TableWithJoins) (tables : List String) (selection : Option Expr)
  | Update (table : TableWithJoins) (assignments : List Assignment) (selection : Option Expr)
  | OtherStmt
deriving DecidableEq

/-- Executor outcome: `Ok(msg)` / `Err(msg)`, plus `panic` for the reachable
out-of-bounds vector index (`select.from[0]`, `assignment.id[0]`). -/
inductive ExecResult where
  | ok (msg : String)
  | err (msg : String)
  | panic
deriving DecidableEq

def dbGet (db : Database) (name : String) : Option Table :=
  assocGet db.tables name

def dbContains (db : Database) (name : String) : Bool :=
  (dbGet db name).isSome

def dbInsert (db : Database) (name : String) (t : Table) : Database :=
  ⟨assocInsert db.tables name t⟩

/-! ### CREATE TABLE -/

/-- The declared-type mapping of the CREATE TABLE branch. -/
def mapColType : SqlType → Except String String
  | .Int => .ok "Integer"
  | .Float => .ok "Float"
  | .Text => .ok "Text"
  | .Boolean => .ok "Bool"
  | .Bool => .ok "Bool"
  | .Other r => .error ("Unsupported type: " ++ r)

/-- The column loop of CREATE TABLE: columns in declaration order, a
unique-set entry pushed for every `Unique` option. -/
def buildColumns : List ColumnDef →
    Except String (List (String × String) × List String)
  | [] => .ok ([], [])
  | c :: rest =>
    match mapColType c.data_type with
    | .error e => .error e
    | .ok ct =>
      match buildColumns rest with
      | .error e => .error e
      | .ok (cols, uniqs) =>
        .ok ((c.name, ct) :: cols,
          (c.options.filterMap fun o =>
            match o with
            | .Unique => some c.name
            | .OtherOption => none) ++ uniqs)

def createTable (db : Database) (name : String) (columns : List ColumnDef) :
    ExecResult × Database :=
  if dbContains db name then
    (.err ("Table '" ++ name ++ "' already exists"), db)
  else
    match buildColumns columns with
    | .error e => (.err e, db)
    | .ok cu =>
      let t : Table :=
        { name := name, columns := cu.1, unique_columns := cu.2, data := [], last_id := 0 }
      (.ok ("Table '" ++ name ++ "' created"), dbInsert db name t)

/-! ### INSERT -/

/-- Step 1 of the per-expression loop: convert an AST expression to a `Value`. -/
def convertExpr : Expr → Except String Value
  | .Value v =>
    match v with
    | .Number n =>
      if containsChar n '.' then .ok (.Float (parseF64 n)) else .ok (.Integer (parseI64 n))
    | .SingleQuotedString s => .ok (.Text s)
    | .Boolean b => .ok (.Bool b)
    | .Null => .ok .Null
    | .OtherValue => .error "Unsupported value format"
  | _ => .error "Unsupported expression type"

/-- Step 2: the type check of the INSERT branch (`Null` always accepted). -/
def typeCheckOk (colType : String) (v : Value) : Bool :=
  match colType, v with
  | "Integer", .Integer _ => true
  | "Float", .Float _ => true
  | "Text", .Text _ => true
  | "Bool", .Bool _ => true
  | _, .Null => true
  | _, _ => false

def typeMismatchMsg (colName expected : String) (actual : Value) : String :=
  "Type Mismatch! Column '" ++ colName ++ "' expects " ++ expected ++
    ", but got " ++ debugValue actual

/-- The per-expression loop of one VALUES row: pair expressions with columns
positionally (`cols_iter.next()`), convert, type-check, insert into the row
map. Fewer expressions than columns is tolerated. -/
def buildRowData : List Expr → List (String × String) → List (String × Value) →
    Except String (List (String × Value))
  | [], _, acc => .ok acc
  | _ :: _, [], _ => .error "Too many values for table columns"
  | e :: es, c :: cs, acc =>
    match convertExpr e with
    | .error msg => .error msg
    | .ok v =>
      if typeCheckOk c.2 v then buildRowData es cs (assocInsert acc c.1 v)
      else .error (typeMismatchMsg c.1 c.2 v)

def uniqueMsg (uc : String) (v : Value) : String :=
  "Unique constraint violation: Column '" ++ uc ++ "' already has value " ++ debugValue v

/-- Step 3: the unique-constraint scan. For each unique-flagged column that the
new row supplies, scan every existing row; equality here is the derived
`PartialEq` of `Value`, under which `Null == Null` holds. -/
def uniqueViolation : List String → List (String × Value) → List (Nat × Row) →
    Option String
  | [], _, _ => none
  | uc :: rest, rd, data =>
    match assocGet rd uc with
    | none => uniqueViolation rest rd data
    | some newVal =>
      if data.any (fun p =>
          match assocGet p.2.data uc with
          | some ev => ev = newVal
          | none => false) then
        some (uniqueMsg uc newVal)
      else uniqueViolation rest rd data

/-- Insert one validated VALUES row into the table: id choice (`id` column
value truncated `as u32`, else the u32 increment `(last_id + 1) % 2^32`,
which wraps to 0 at `last_id = u32::MAX` — the release-build overflow
semantics; a debug build panics at that point instead), the `last_id`
advance, and the (possibly overwriting) map insertion. -/
def insertRow (t : Table) (rowExpr : List Expr) : Except String Table :=
  match buildRowData rowExpr t.columns [] with
  | .error e => .error e
  | .ok rd =>
    match uniqueViolation t.unique_columns rd t.data with
    | some msg => .error msg
    | none =>
      let rowId : Nat :=
        match assocGet rd "id" with
        | some (.Integer pid) => (pid % (2 ^ 32 : Int)).toNat
        | _ => (t.last_id + 1) % 2 ^ 32
      let t1 := if rowId > t.last_id then { t with last_id := rowId } else t
      .ok { t1 with data := btreeInsert t1.data rowId { id := rowId, data := rd } }

/-- The VALUES row loop: each row is committed before the next is examined;
the first failure returns immediately (rows already committed remain). -/
def insertRows (t : Table) : List (List Expr) → Nat → Except String Nat × Table
  | [], count => (.ok count, t)
  | r :: rs, count =>
    match insertRow t r with
    | .error e => (.error e, t)
    | .ok t1 => insertRows t1 rs (count + 1)

def insertStmt (db : Database) (tableName : String) (source : QueryBox) :
    ExecResult × Database :=
  match dbGet db tableName with
  | none => (.err ("Table '" ++ tableName ++ "' not found"), db)
  | some t =>
    match source.body with
    | .Values rows =>
      match insertRows t rows 0 with
      | (.ok count, t1) =>
        (.ok ("Inserted " ++ toString count ++ " rows"), dbInsert db tableName t1)
      | (.error e, t1) => (.err e, dbInsert db tableName t1)
    | _ => (.err "Only INSERT VALUES is supported", db)

/-! ### SELECT -/

/-- `extract_col`: a bare identifier, or the last segment of a compound one. -/
def extract_col : Expr → Option String
  | .Identifier ident => some ident
  | .CompoundIdentifier idents => idents.getLast?
  | _ => none

/-- Extract the two join-key column names from the join operator. -/
def joinCols : JoinOperator → Except String (String × String)
  | .Inner (.On (.BinaryOp l .Eq r)) =>
    match extract_col l, extract_col r with
    | some lc, some rc => .ok (lc, rc)
    | _, _ => .error "Unsupported ON condition"
  | _ => .error "Only INNER JOIN ... ON supported"

/-- One output cell row of the join branch: all left columns then all right
columns, each rendered with `{:?}` (missing keys read as `Null`). -/
def joinRowLine (leftTable rightTable : Table) (lrow rrow : Row) : String :=
  String.intercalate " | "
    ((leftTable.columns.map fun c => debugValue ((assocGet lrow.data c.1).getD .Null)) ++
     (rightTable.columns.map fun c => debugValue ((assocGet rrow.data c.1).getD .Null)))

/-- The nested-loop join over left rows × right rows; a pair is emitted iff
the left key value is non-Null and equal to the right key value. -/
def joinDataLines (leftTable rightTable : Table) (lc rc : String) : List String :=
  (btreeValues leftTable.data).flatMap fun lrow =>
    (btreeValues rightTable.data).filterMap fun rrow =>
      let lval := (assocGet lrow.data lc).getD .Null
      let rval := (assocGet rrow.data rc).getD .Null
      if lval ≠ .Null ∧ lval = rval then some (joinRowLine leftTable rightTable lrow rrow)
      else none

def selectJoin (db : Database) (leftName : String) (leftTable : Table) (jn : Join) :
    ExecResult :=
  match jn.relation with
  | .Table rightName =>
    match dbGet db rightName with
    | none => .err ("Table '" ++ rightName ++ "' not found")
    | some rightTable =>
      match joinCols jn.join_operator with
      | .error e => .err e
      | .ok lcrc =>
        let headers :=
          (leftTable.columns.map fun c => leftName ++ "." ++ c.1) ++
          (rightTable.columns.map fun c => rightName ++ "." ++ c.1)
        .ok (String.intercalate "\n"
          (String.intercalate " | " headers ::
            joinDataLines leftTable rightTable lcrc.1 lcrc.2))
  | .OtherFactor => .err "Only simple table joins supported"

/-- The projection loop of the no-join branch: a wildcard takes every declared
column (discarding anything collected before it and the rest of the list); a
bare identifier must name a declared column; anything else fails. -/
def computeTargets (allCols : List String) :
    List SelectItem → List String → Except String (List String)
  | [], acc => .ok acc
  | .Wildcard :: _, _ => .ok allCols
  | .UnnamedExpr (.Identifier ident) :: rest, acc =>
    if allCols.contains ident then computeTargets allCols rest (acc ++ [ident])
    else .error ("Column '" ++ ident ++ "' not found")
  | .UnnamedExpr _ :: _, _ => .error "Only SELECT * or SELECT col supported"
  | .OtherItem :: _, _ => .error "Only SELECT * or SELECT col supported"

/-- One data line of the no-join branch: the row id, then the requested
columns rendered with `Display` (missing keys read as `Null`). -/
def selectRowLine (targets : List String) (row : Row) : String :=
  toString row.id ++ "  | " ++
    String.intercalate " | "
      (targets.map fun c => displayValue ((assocGet row.data c).getD .Null))

def selectNoJoin (leftTable : Table) (projection : List SelectItem) : ExecResult :=
  let allCols := leftTable.columns.map fun c => c.1
  match computeTargets allCols projection [] with
  | .error e => .err e
  | .ok targets =>
    .ok (String.intercalate "\n"
      (("ID | " ++ String.intercalate " | " targets) ::
        (btreeValues leftTable.data).map (selectRowLine targets)))

/-- The `Statement::Query` branch. `select.from[0]` is indexed before any
check, so an empty FROM list aborts the process (out-of-bounds panic). -/
def queryStmt (db : Database) (q : QueryBox) : ExecResult :=
  match q.body with
  | .Select select =>
    match select.from_ with
    | [] => .panic
    | twj :: _ =>
      match twj.relation with
      | .Table leftName =>
        match dbGet db leftName with
        | none => .err ("Table '" ++ leftName ++ "' not found")
        | some leftTable =>
          match twj.joins with
          | [] => selectNoJoin leftTable select.projection
          | jn :: _ => selectJoin db leftName leftTable jn
      | .OtherFactor => .err "Only simple table names supported"
  | _ => .err "Only SELECT statements supported"

/-! ### DELETE -/

def deleteStmt (db : Database) (from_ : List TableWithJoins) (tables : List String)
    (selection : Option Expr) : ExecResult × Database :=
  let tnameE : Except String String :=
    match from_ with
    | twj :: _ =>
      match twj.relation with
      | .Table n => .ok n
      | .OtherFactor => .error "Only simple table names supported"
    | [] =>
      match tables with
      | n :: _ => .ok n
      | [] => .error "No table specified"
  match tnameE with
  | .error e => (.err e, db)
  | .ok tname =>
    match dbGet db tname with
    | none => (.err ("Table '" ++ tname ++ "' not found"), db)
    | some t =>
      match selection with
      | some (.BinaryOp l .Eq r) =>
        match l with
        | .Identifier i =>
          if toLowerStr i ≠ "id" then
            (.err "For this demo, you can only DELETE by 'id' (e.g. WHERE id = 1)", db)
          else
            match r with
            | .Value (.Number n) =>
              let idVal := parseU32 n
              match btreeGet t.data idVal with
              | some _ =>
                (.ok ("Deleted row with id " ++ toString idVal),
                  dbInsert db tname { t with data := btreeRemove t.data idVal })
              | none => (.err ("ID " ++ toString idVal ++ " not found"), db)
            | _ => (.err "ID must be a number", db)
        | _ => (.err "Left side must be column name", db)
      | _ => (.err "DELETE must have a WHERE id = X clause", db)

/-! ### UPDATE -/

/-- Value conversion of the UPDATE branch: recognized literals convert as in
INSERT; every other *literal* variant (including the NULL literal) becomes
`Null`. -/
def updateValueOf : SqlValue → Value
  | .Number n =>
    if containsChar n '.' then .Float (parseF64 n) else .Integer (parseI64 n)
  | .SingleQuotedString s => .Text s
  | .Boolean b => .Bool b
  | _ => .Null

/-- The assignment loop of UPDATE: each assignment overwrites the row's entry
in order; a non-literal value expression returns `Err("Unsupported value")`
(earlier assignments remain applied); `assignment.id[0]` on an empty target
list is an out-of-bounds panic. -/
def applyAssignments : List Assignment → Row → ExecResult × Row
  | [], row => (.ok "", row)
  | a :: rest, row =>
    match a.id with
    | [] => (.panic, row)
    | colName :: _ =>
      match a.value with
      | .Value v =>
        applyAssignments rest { row with data := assocInsert row.data colName (updateValueOf v) }
      | _ => (.err "Unsupported value", row)

def updateStmt (db : Database) (table : TableWithJoins) (assignments : List Assignment)
    (selection : Option Expr) : ExecResult × Database :=
  match table.relation with
  | .OtherFactor => (.err "Only simple table names supported", db)
  | .Table name =>
    match dbGet db name with
    | none => (.err ("Table '" ++ name ++ "' not found"), db)
    | some t =>
      let idValE : Except String Nat :=
        match selection with
        | some (.BinaryOp l .Eq r) =>
          match l with
          | .Identifier i =>
            if toLowerStr i ≠ "id" then .error "Only UPDATE WHERE id = ... supported"
            else
              match r with
              | .Value (.Number n) => .ok (parseU32 n)
              | _ => .error "ID must be number"
          | _ => .error "Left side must be col"
        | _ => .error "Missing WHERE id = clause"
      match idValE with
      | .error e => (.err e, db)
      | .ok idVal =>
        match btreeGet t.data idVal with
        | none => (.err ("ID " ++ toString idVal ++ " not found"), db)
        | some row =>
          match applyAssignments assignments row with
          | (.ok _, row1) =>
            (.ok ("Updated row " ++ toString idVal),
              dbInsert db name { t with data := btreeInsert t.data idVal row1 })
          | (.err e, row1) =>
            (.err e, dbInsert db name { t with data := btreeInsert t.data idVal row1 })
          | (.panic, row1) =>
            (.panic, dbInsert db name { t with data := btreeInsert t.data idVal row1 })

/-- `process_command`: dispatch over the statement kind. -/
def process_command (db : Database) (stmt : Stmt) : ExecResult × Database :=
  match stmt with
  | .CreateTable name columns => createTable db name columns
  | .Insert tableName source => insertStmt db tableName source
  | .Query q => (queryStmt db q, db)
  | .Delete from_ tables selection => deleteStmt db from_ tables selection
  | .Update table assignments selection => updateStmt db table assignments selection
  | .OtherStmt => (.err "SQL command not supported yet", db)

/-! ### Reachability and invariants -/

/-- Database states reachable from the empty database by executor statements. -/
inductive Reachable : Database → Prop where
  | empty : Reachable ⟨[]⟩
  | step (db : Database) (stmt : Stmt) : Reachable db →
      Reachable (process_command db stmt).2

def isUpdate : Stmt → Bool
  | .Update _ _ _ => true
  | _ => false

/-- Database states reachable from the empty database without any UPDATE. -/
inductive ReachableNU : Database → Prop where
  | empty : ReachableNU ⟨[]⟩
  | step (db : Database) (stmt : Stmt) : ReachableNU db → isUpdate stmt = false →
      ReachableNU (process_command db stmt).2

/-- One row entry is well typed for a schema: if its key names a schema
column, then some schema column of that name accepts its value (the INSERT
type check, which admits `Null` everywhere). -/
def wellTypedEntry (cols : List (String × String)) (k : String) (v : Value) : Bool :=
  (cols.all fun c => c.1 != k) || (cols.any fun c => c.1 == k && typeCheckOk c.2 v)

def tableTyped (t : Table) : Bool :=
  t.data.all fun p => p.2.data.all fun kv => wellTypedEntry t.columns kv.1 kv.2

/-- The spec's typing invariant: every value stored under a schema column
matches a declared type for that column name, or is `Null`. -/
def dbTyped (db : Database) : Bool :=
  db.tables.all fun p => tableTyped p.2

/-! ### Association-list and sorted-map lemmas -/

theorem assocGet_insert_self {α : Type} (m : List (String × α)) (k : String) (v : α) :
    assocGet (assocInsert m k v) k = some v := by
  induction m with
  | nil => simp [assocInsert, assocGet]
  | cons p rest ih =>
    by_cases h : p.1 = k
    · simp [assocInsert, h, assocGet]
    · simp [assocInsert, h, assocGet, ih]

theorem assocGet_insert_ne {α : Type} (m : List (String × α)) (k k' : String) (v : α)
    (h : k' ≠ k) : assocGet (assocInsert m k v) k' = assocGet m k' := by
  have hkk : ¬ k = k' := fun he => h he.symm
  induction m with
  | nil => simp [assocInsert, assocGet, hkk]
  | cons p rest ih =>
    by_cases hp : p.1 = k
    · subst hp
      simp [assocInsert, assocGet, hkk]
    · simp [assocInsert, hp, assocGet, ih]

theorem mem_assocInsert {α : Type} (m : List (String × α)) (k : String) (v : α)
    (q : String × α) (hq : q ∈ assocInsert m k v) : q = (k, v) ∨ q ∈ m := by
  induction m with
  | nil => simpa [assocInsert] using hq
  | cons p rest ih =>
    by_cases h : p.1 = k
    · simp only [assocInsert, h, if_pos rfl] at hq
      rcases List.mem_cons.1 hq with h1 | h1
      · exact .inl h1
      · exact .inr (List.mem_cons_of_mem _ h1)
    · simp only [assocInsert, if_neg h] at hq
      rcases List.mem_cons.1 hq with h1 | h1
      · exact .inr (h1 ▸ List.mem_cons_self _ _)
      · rcases ih h1 with h2 | h2
        · exact .inl h2
        · exact .inr (List.mem_cons_of_mem _ h2)

theorem btreeGet_insert_self {α : Type} (m : List (Nat × α)) (k : Nat) (v : α) :
    btreeGet (btreeInsert m k v) k = some v := by
  induction m with
  | nil => simp [btreeInsert, btreeGet]
  | cons p rest ih =>
    rcases lt_trichotomy k p.1 with h | h | h
    · simp [btreeInsert, h, btreeGet]
    · simp [btreeInsert, h.symm, btreeGet, lt_irrefl]
    · have h1 : ¬ k < p.1 := not_lt_of_gt h
      have h2 : ¬ k = p.1 := fun he => absurd (he ▸ h) (lt_irrefl _)
      have h3 : ¬ p.1 = k := fun he => h2 he.symm
      simp [btreeInsert, h1, h2, btreeGet, h3, ih]

theorem btreeGet_insert_ne {α : Type} (m : List (Nat × α)) (k k' : Nat) (v : α)
    (h : k' ≠ k) : btreeGet (btreeInsert m k v) k' = btreeGet m k' := by
  have hkk : ¬ k = k' := fun he => h he.symm
  induction m with
  | nil => simp [btreeInsert, btreeGet, hkk]
  | cons p rest ih =>
    rcases lt_trichotomy k p.1 with h1 | h1 | h1
    · simp [btreeInsert, h1, btreeGet, hkk]
    · subst h1
      simp [btreeInsert, lt_irrefl, btreeGet, hkk]
    · have h2 : ¬ k < p.1 := not_lt_of_gt h1
      have h3 : ¬ k = p.1 := fun he => absurd (he ▸ h1) (lt_irrefl _)
      by_cases h4 : p.1 = k'
      · simp only [btreeInsert, if_neg h2, if_neg h3, btreeGet, if_pos h4]
      · simp only [btreeInsert, if_neg h2, if_neg h3, btreeGet, if_neg h4, ih]

theorem mem_btreeInsert {α : Type} (m : List (Nat × α)) (k : Nat) (v : α)
    (q : Nat × α) (hq : q ∈ btreeInsert m k v) : q = (k, v) ∨ q ∈ m := by
  induction m with
  | nil => simpa [btreeInsert] using hq
  | cons p rest ih =>
    rcases lt_trichotomy k p.1 with h1 | h1 | h1
    · simp only [btreeInsert, if_pos h1] at hq
      rcases List.mem_cons.1 hq with h | h
      · exact .inl h
      · exact .inr h
    · have h2 : ¬ k < p.1 := h1 ▸ lt_irrefl _
      simp only [btreeInsert, if_neg h2, if_pos h1] at hq
      rcases List.mem_cons.1 hq with h | h
      · exact .inl h
      · exact .inr (List.mem_cons_of_mem _ h)
    · have h2 : ¬ k < p.1 := not_lt_of_gt h1
      have h3 : ¬ k = p.1 := fun he => absurd (he ▸ h1) (lt_irrefl _)
      simp only [btreeInsert, if_neg h2, if_neg h3] at hq
      rcases List.mem_cons.1 hq with h | h
      · exact .inr (h ▸ List.mem_cons_self _ _)
      · rcases ih h with h4 | h4
        · exact .inl h4
        · exact .inr (List.mem_cons_of_mem _ h4)

theorem mem_btreeRemove {α : Type} (m : List (Nat × α)) (k : Nat)
    (q : Nat × α) (hq : q ∈ btreeRemove m k) : q ∈ m := by
  induction m with
  | nil => simp [btreeRemove] at hq
  | cons p rest ih =>
    by_cases h : p.1 = k
    · simp only [btreeRemove, if_pos h] at hq
      exact List.mem_cons_of_mem _ (ih hq)
    · simp only [btreeRemove, if_neg h] at hq
      rcases List.mem_cons.1 hq with h1 | h1
      · exact h1 ▸ List.mem_cons_self _ _
      · exact List.mem_cons_of_mem _ (ih h1)

theorem btreeGet_mem {α : Type} (m : List (Nat × α)) (k : Nat) (r : α)
    (h : btreeGet m k = some r) : (k, r) ∈ m := by
  induction m with
  | nil => simp [btreeGet] at h
  | cons p rest ih =>
    by_cases hp : p.1 = k
    · simp only [btreeGet, if_pos hp] at h
      cases h
      exact hp ▸ List.mem_cons_self _ _
    · simp only [btreeGet, if_neg hp] at h
      exact List.mem_cons_of_mem _ (ih h)

/-! ### Concrete statements and databases used by counterexamples and witnesses -/

/-- `CREATE TABLE t (u INT UNIQUE)`. -/
def exCreateUnique : Stmt := .CreateTable "t" [⟨"u", .Int, [.Unique]⟩]

/-- `INSERT INTO t VALUES (NULL)`. -/
def exInsertNull : Stmt := .Insert "t" ⟨.Values [[.Value .Null]]⟩

/-- The database holding table `t` with one row whose unique column `u` is Null. -/
def exDbNull : Database :=
  (process_command (process_command ⟨[]⟩ exCreateUnique).2 exInsertNull).2

/-- `CREATE TABLE t2 (a INT)`. -/
def exCreateT2 : Stmt := .CreateTable "t2" [⟨"a", .Int, []⟩]

/-- `INSERT INTO t2 VALUES (5)`. -/
def exInsertT2 : Stmt := .Insert "t2" ⟨.Values [[.Value (.Number "5")]]⟩

/-- The database holding table `t2(a: Integer)` with row id 1, `a = 5`. -/
def exDbT2 : Database :=
  (process_command (process_command ⟨[]⟩ exCreateT2).2 exInsertT2).2

/-- `UPDATE t2 SET a = 'x' WHERE id = 1`: stores Text under an Integer column. -/
def exUpdateText : Stmt :=
  .Update ⟨.Table "t2", []⟩ [⟨["a"], .Value (.SingleQuotedString "x")⟩]
    (some (.BinaryOp (.Identifier "id") .Eq (.Value (.Number "1"))))

/-- `UPDATE t2 SET a = (b = c) WHERE id = 1`: a non-literal value expression. -/
def exUpdateNonLiteral : Stmt :=
  .Update ⟨.Table "t2", []⟩ [⟨["a"], .BinaryOp (.Identifier "b") .Eq (.Identifier "c")⟩]
    (some (.BinaryOp (.Identifier "id") .Eq (.Value (.Number "1"))))

/-- Tables `a(x INT)` and `b(y INT)`, one row each holding 1. -/
def exDbJoin : Database :=
  (process_command
    (process_command
      (process_command
        (process_command ⟨[]⟩ (.CreateTable "a" [⟨"x", .Int, []⟩])).2
        (.CreateTable "b" [⟨"y", .Int, []⟩])).2
      (.Insert "a" ⟨.Values [[.Value (.Number "1")]]⟩)).2
    (.Insert "b" ⟨.Values [[.Value (.Number "1")]]⟩)).2

/-- `SELECT * FROM a JOIN b ON x = y`. -/
def exJoinQuery : Stmt :=
  .Query ⟨.Select ⟨[.Wildcard],
    [⟨.Table "a", [⟨.Table "b", .Inner (.On (.BinaryOp (.Identifier "x") .Eq (.Identifier "y")))⟩]⟩]⟩⟩

/-- A parsed `SELECT 1`: a Select statement whose FROM list is empty. -/
def exSelectNoFrom : Stmt := .Query ⟨.Select ⟨[.UnnamedExpr (.Value (.Number "1"))], []⟩⟩

/-! ### Claim theorems -/

/-- Claim C10: executing any parsed SELECT statement (`Statement::Query`),
with or without a join and whether it succeeds, fails or hits the
out-of-bounds panic, leaves the database unchanged: the Query branch of
`process_command` performs no table mutation. -/
theorem query_frame (db : Database) (q : QueryBox) :
    (process_command db (.Query q)).2 = db := rfl

/-- Claim C2, failing input: the executor does not return a failure value on
every parsed statement — a SELECT whose FROM list is empty (e.g. the parse of
`SELECT 1`) reaches `select.from[0]`, an out-of-bounds vector index that
aborts the host process instead of returning `Err`. -/
theorem select_empty_from_panics :
    (process_command ⟨[]⟩ exSelectNoFrom).1 = .panic ∧
    ∀ db : Database, (process_command db exSelectNoFrom).1 = .panic :=
  ⟨rfl, fun _ => rfl⟩

/-- Claim C1 counterexample: with table `t(u INT UNIQUE)` already holding a
row whose `u` is Null (a state reached by executor statements), inserting
another Null into `u` raises a UniqueViolation — although the claim says a
Null value never does. The derived `PartialEq` of `Value` makes
`Null == Null` true, and the unique scan has no non-Null guard. -/
theorem insert_null_unique_violation_cex :
    Reachable exDbNull ∧
    (dbGet exDbNull "t").map (fun t => t.data) =
      some [(1, ⟨1, [("u", Value.Null)]⟩)] ∧
    convertExpr (Expr.Value SqlValue.Null) = .ok Value.Null ∧
    (process_command exDbNull exInsertNull).1 =
      .err "Unique constraint violation: Column 'u' already has value Null" :=
  ⟨Reachable.step _ exInsertNull (Reachable.step _ exCreateUnique Reachable.empty),
    by decide, rfl, by decide⟩

/-- Claim C3 counterexample: the typing invariant is not preserved by UPDATE.
From the empty database, `CREATE TABLE t2 (a INT)`, `INSERT INTO t2 VALUES (5)`,
then `UPDATE t2 SET a = 'x' WHERE id = 1` stores `Text("x")` under the column
`a` declared `Integer` (UPDATE performs no type check). -/
theorem update_breaks_typing_cex :
    Reachable (process_command exDbT2 exUpdateText).2 ∧
    (process_command exDbT2 exUpdateText).1 = .ok "Updated row 1" ∧
    ((dbGet (process_command exDbT2 exUpdateText).2 "t2").map fun t => t.columns) =
      some [("a", "Integer")] ∧
    (((dbGet (process_command exDbT2 exUpdateText).2 "t2").bind
        fun t => btreeGet t.data 1).map fun r => assocGet r.data "a") =
      some (some (.Text "x")) ∧
    dbTyped (process_command exDbT2 exUpdateText).2 = false :=
  ⟨Reachable.step _ exUpdateText
      (Reachable.step _ exInsertT2 (Reachable.step _ exCreateT2 Reachable.empty)),
    by decide, by decide, by decide, by decide⟩

/-- Claim C5 counterexample: in a successful SELECT with a join, data cells
are rendered with `{:?}` (Rust Debug), not in the natural forms the claim
states: with tables `a(x INT)` and `b(y INT)` each holding the integer 1, the
join emits the cell text `Integer(1)`, not `1` (and a Null cell would print
`Null`, not `NULL`). -/
theorem join_debug_rendering_cex :
    Reachable exDbJoin ∧
    (process_command exDbJoin exJoinQuery).1 =
      .ok "a.x | b.y\nInteger(1) | Integer(1)" ∧
    displayValue (.Integer 1) = "1" ∧
    debugValue (.Integer 1) = "Integer(1)" ∧
    debugValue .Null = "Null" :=
  ⟨Reachable.step _ _ (Reachable.step _ _ (Reachable.step _ _
      (Reachable.step _ _ Reachable.empty))), by decide, rfl, rfl, rfl⟩

/-- Claim C7 counterexample: an UPDATE assignment whose value expression is
not a literal at all (here the expression `b = c`) does not degrade to Null —
the statement fails with `Unsupported value`. Only unrecognized *literal*
variants degrade to Null. -/
theorem update_nonliteral_fails_cex :
    (process_command exDbT2 exUpdateNonLiteral).1 = .err "Unsupported value" ∧
    (((dbGet (process_command exDbT2 exUpdateNonLiteral).2 "t2").bind
        fun t => btreeGet t.data 1).map fun r => assocGet r.data "a") =
      some (some (.Integer 5)) :=
  ⟨by decide, by decide⟩

/-! ### INSERT: row id and multi-row behavior -/

/-- Claim C6, amended: for a VALUES row that passes validation, the row id
is the supplied `id`-column integer truncated to 32 bits (silently
overwriting any existing row with that id), otherwise the wrapping u32
increment `(last_id + 1) % 2^32` — not the plain successor, which differs at
`last_id = u32::MAX` (see the counterexample); and `last_id` becomes
`max last_id rid`, i.e. it advances exactly when the new id exceeds it. -/
theorem insert_row_id_spec (t : Table) (exprs : List Expr) (rd : List (String × Value))
    (hb : buildRowData exprs t.columns [] = .ok rd)
    (hu : uniqueViolation t.unique_columns rd t.data = none) :
    ∃ rid : Nat,
      rid = (match assocGet rd "id" with
             | some (.Integer pid) => (pid % (2 ^ 32 : Int)).toNat
             | _ => (t.last_id + 1) % 2 ^ 32) ∧
      insertRow t exprs =
        .ok { t with last_id := max t.last_id rid,
                     data := btreeInsert t.data rid ⟨rid, rd⟩ } ∧
      ∀ k, btreeGet (btreeInsert t.data rid ⟨rid, rd⟩) k =
        if k = rid then some ⟨rid, rd⟩ else btreeGet t.data k := by
  refine ⟨_, rfl, ?_, ?_⟩
  · show insertRow t exprs = _
    rw [insertRow, hb]
    show (match uniqueViolation t.unique_columns rd t.data with
      | some msg => Except.error msg
      | none =>
        let rowId : Nat :=
          match assocGet rd "id" with
          | some (.Integer pid) => (pid % (2 ^ 32 : Int)).toNat
          | _ => (t.last_id + 1) % 2 ^ 32
        let t1 := if rowId > t.last_id then { t with last_id := rowId } else t
        .ok { t1 with data := btreeInsert t1.data rowId { id := rowId, data := rd } }) = _
    rw [hu]
    show Except.ok _ = _
    by_cases hgt :
        (match assocGet rd "id" with
         | some (.Integer pid) => (pid % (2 ^ 32 : Int)).toNat
         | _ => (t.last_id + 1) % 2 ^ 32) > t.last_id
    · rw [if_pos hgt, Nat.max_eq_right (Nat.le_of_lt hgt)]
    · rw [if_neg hgt, Nat.max_eq_left (Nat.not_lt.mp hgt)]
  · intro k
    by_cases hk : k =
        (match assocGet rd "id" with
         | some (.Integer pid) => (pid % (2 ^ 32 : Int)).toNat
         | _ => (t.last_id + 1) % 2 ^ 32)
    · rw [if_pos hk, hk, btreeGet_insert_self]
    · rw [if_neg hk, btreeGet_insert_ne _ _ _ _ hk]

/-- The table `t2(a: Integer)` with one row `id 1, a = 5` (the state of
`exDbT2`), written out for witnesses. -/
def exT2 : Table :=
  { name := "t2", columns := [("a", "Integer")], unique_columns := [],
    data := [(1, ⟨1, [("a", .Integer 5)]⟩)], last_id := 1 }

/-- Witness for `insert_row_id_spec` at table `exT2` and the row `(7)`:
the row supplies no `id` column, so the id is `(last_id + 1) % 2^32 = 2`. -/
theorem insert_row_id_spec_witness :
    ∃ rid : Nat,
      rid = (match assocGet [("a", Value.Integer 7)] "id" with
             | some (.Integer pid) => (pid % (2 ^ 32 : Int)).toNat
             | _ => (exT2.last_id + 1) % 2 ^ 32) ∧
      insertRow exT2 [.Value (.Number "7")] =
        .ok { exT2 with last_id := max exT2.last_id rid,
                        data := btreeInsert exT2.data rid ⟨rid, [("a", Value.Integer 7)]⟩ } ∧
      ∀ k, btreeGet (btreeInsert exT2.data rid ⟨rid, [("a", Value.Integer 7)]⟩) k =
        if k = rid then some ⟨rid, [("a", Value.Integer 7)]⟩ else btreeGet exT2.data k :=
  insert_row_id_spec exT2 [.Value (.Number "7")] [("a", Value.Integer 7)]
    (by rfl) (by decide)

/-- `CREATE TABLE t3 (id INT)`. -/
def exCreateT3 : Stmt := .CreateTable "t3" [⟨"id", .Int, []⟩]

/-- `INSERT INTO t3 VALUES (4294967295)`: the explicit id sets `last_id` to
`u32::MAX`. -/
def exInsertMax : Stmt := .Insert "t3" ⟨.Values [[.Value (.Number "4294967295")]]⟩

/-- `INSERT INTO t3 VALUES (NULL)`: no Integer under `id`, so the id is
auto-incremented. -/
def exInsertAutoNull : Stmt := .Insert "t3" ⟨.Values [[.Value .Null]]⟩

/-- Table `t3(id: Integer)` holding one row with explicit id `4294967295`. -/
def exDbMax : Database :=
  (process_command (process_command ⟨[]⟩ exCreateT3).2 exInsertMax).2

/-- Claim C6 counterexample: with `last_id = u32::MAX` (a state reached by
inserting the explicit id 4294967295), the next auto-increment insert does
not get id `last_id + 1 = 4294967296`: the u32 increment wraps, the row is
stored under id 0 (in a debug build the process panics there instead), and
`last_id` stays 4294967295. -/
theorem insert_wrap_id_cex :
    Reachable exDbMax ∧
    ((dbGet exDbMax "t3").map fun t => t.last_id) = some 4294967295 ∧
    (process_command exDbMax exInsertAutoNull).1 = .ok "Inserted 1 rows" ∧
    ((dbGet (process_command exDbMax exInsertAutoNull).2 "t3").map fun t =>
      (t.last_id, t.data.map fun p => p.1)) = some (4294967295, [0, 4294967295]) ∧
    (4294967295 : Nat) + 1 ≠ 0 :=
  ⟨Reachable.step _ exInsertMax (Reachable.step _ exCreateT3 Reachable.empty),
    by decide, by decide, by decide, by decide⟩

/-- The INSERT loop without the counter: fold one validated-row insertion
over the value rows, stopping at the first failure. -/
def iterInsert (t : Table) : List (List Expr) → Except String Table
  | [] => .ok t
  | r :: rs =>
    match insertRow t r with
    | .error e => .error e
    | .ok t1 => iterInsert t1 rs

theorem insertRows_all_ok (rows : List (List Expr)) : ∀ (t tfin : Table) (c : Nat),
    iterInsert t rows = .ok tfin → insertRows t rows c = (.ok (c + rows.length), tfin) := by
  induction rows with
  | nil =>
    intro t tfin c h
    simp only [iterInsert, Except.ok.injEq] at h
    subst h
    simp [insertRows]
  | cons r rs ih =>
    intro t tfin c h
    simp only [iterInsert] at h
    cases hr : insertRow t r with
    | error e => rw [hr] at h; simp at h
    | ok t1 =>
      rw [hr] at h
      simp only [insertRows, hr, List.length_cons]
      have hc : c + 1 + rs.length = c + (rs.length + 1) := by omega
      rw [← hc]
      exact ih t1 tfin (c + 1) h

theorem insertRows_first_err (rows : List (List Expr)) :
    ∀ (t tk : Table) (k : Nat) (r : List Expr) (e : String) (c : Nat),
    rows[k]? = some r → iterInsert t (rows.take k) = .ok tk →
    insertRow tk r = .error e → insertRows t rows c = (.error e, tk) := by
  induction rows with
  | nil => intro t tk k r e c hk _ _; simp at hk
  | cons r0 rs ih =>
    intro t tk k r e c hk hpre herr
    cases k with
    | zero =>
      rw [List.getElem?_cons_zero] at hk
      have hr0 : r0 = r := Option.some.inj hk
      subst hr0
      simp only [List.take_zero, iterInsert, Except.ok.injEq] at hpre
      subst hpre
      simp [insertRows, herr]
    | succ k =>
      rw [List.getElem?_cons_succ] at hk
      simp only [List.take_succ_cons, iterInsert] at hpre
      cases hr : insertRow t r0 with
      | error e0 => rw [hr] at hpre; simp at hpre
      | ok t1 =>
        rw [hr] at hpre
        simp only [insertRows, hr]
        exact ih t1 tk k r e (c + 1) hk hpre herr

/-- Claim C4: a multi-row INSERT commits rows left to right; if every row
succeeds the message reports the row count, and the first failing row aborts
the statement with that row's failure, leaving exactly the rows committed
before it (the failing row is not stored, nothing is rolled back). -/
theorem insert_rows_first_failure_spec (db : Database) (name : String) (t : Table)
    (rows : List (List Expr)) (hget : dbGet db name = some t) :
    (∀ tfin : Table, iterInsert t rows = .ok tfin →
      process_command db (.Insert name ⟨.Values rows⟩) =
        (.ok ("Inserted " ++ toString rows.length ++ " rows"), dbInsert db name tfin)) ∧
    (∀ (k : Nat) (tk : Table) (r : List Expr) (e : String),
      rows[k]? = some r → iterInsert t (rows.take k) = .ok tk →
      insertRow tk r = .error e →
      process_command db (.Insert name ⟨.Values rows⟩) = (.err e, dbInsert db name tk)) := by
  constructor
  · intro tfin h
    have hrows := insertRows_all_ok rows t tfin 0 h
    show insertStmt db name ⟨.Values rows⟩ = _
    rw [insertStmt, hget]
    show (match insertRows t rows 0 with
      | (.ok count, t1) =>
        ((.ok ("Inserted " ++ toString count ++ " rows") : ExecResult), dbInsert db name t1)
      | (.error e, t1) => (.err e, dbInsert db name t1)) = _
    rw [hrows, Nat.zero_add]
  · intro k tk r e hk hpre herr
    have hrows := insertRows_first_err rows t tk k r e 0 hk hpre herr
    show insertStmt db name ⟨.Values rows⟩ = _
    rw [insertStmt, hget]
    show (match insertRows t rows 0 with
      | (.ok count, t1) =>
        ((.ok ("Inserted " ++ toString count ++ " rows") : ExecResult), dbInsert db name t1)
      | (.error e, t1) => (.err e, dbInsert db name t1)) = _
    rw [hrows]

/-- A three-row INSERT into `t2(a: Integer)` whose middle row mismatches the
declared type: rows `(6)`, `('bad')`, `(8)`. -/
def exRows3 : List (List Expr) :=
  [[.Value (.Number "6")], [.Value (.SingleQuotedString "bad")], [.Value (.Number "8")]]

/-- Witness for `insert_rows_first_failure_spec` on `exDbT2` and `exRows3`:
row 0 commits, row 1 fails the type check and aborts the statement with the
first row kept. -/
theorem insert_rows_first_failure_spec_witness :
    (∀ tfin : Table, iterInsert exT2 exRows3 = .ok tfin →
      process_command exDbT2 (.Insert "t2" ⟨.Values exRows3⟩) =
        (.ok ("Inserted " ++ toString exRows3.length ++ " rows"), dbInsert exDbT2 "t2" tfin)) ∧
    (∀ (k : Nat) (tk : Table) (r : List Expr) (e : String),
      exRows3[k]? = some r → iterInsert exT2 (exRows3.take k) = .ok tk →
      insertRow tk r = .error e →
      process_command exDbT2 (.Insert "t2" ⟨.Values exRows3⟩) =
        (.err e, dbInsert exDbT2 "t2" tk)) :=
  insert_rows_first_failure_spec exDbT2 "t2" exT2 exRows3 (by decide)

/-! ### UPDATE: assignment behavior -/

/-- Pure fold of the UPDATE assignment loop over assignments whose value is a
literal (`Expr::Value`) with a nonempty target; `none` when some assignment
falls outside that shape. -/
def assignLit : List Assignment → Row → Option Row
  | [], row => some row
  | a :: rest, row =>
    match a.id, a.value with
    | c :: _, .Value v =>
      assignLit rest { row with data := assocInsert row.data c (updateValueOf v) }
    | _, _ => none

theorem applyAssignments_all_lit (asgs : List Assignment) : ∀ row row' : Row,
    assignLit asgs row = some row' → applyAssignments asgs row = (.ok "", row') := by
  induction asgs with
  | nil =>
    intro row row' h
    simp only [assignLit, Option.some.injEq] at h
    subst h
    rfl
  | cons a rest ih =>
    intro row row' h
    cases hid : a.id with
    | nil => cases hv : a.value <;> simp [assignLit, hid, hv] at h
    | cons c cs =>
      cases hv : a.value with
      | Value v =>
        simp only [assignLit, hid, hv] at h
        simp only [applyAssignments, hid, hv]
        exact ih _ _ h
      | Identifier nm => simp [assignLit, hid, hv] at h
      | CompoundIdentifier ps => simp [assignLit, hid, hv] at h
      | BinaryOp l op r => simp [assignLit, hid, hv] at h
      | OtherExpr => simp [assignLit, hid, hv] at h

theorem applyAssignments_first_nonlit (asgs : List Assignment) :
    ∀ (row rowk : Row) (k : Nat) (a : Assignment),
    asgs[k]? = some a → assignLit (asgs.take k) row = some rowk →
    (∀ v, a.value ≠ .Value v) → a.id ≠ [] →
    applyAssignments asgs row = (.err "Unsupported value", rowk) := by
  induction asgs with
  | nil => intro row rowk k a hk _ _ _; simp at hk
  | cons a0 rest ih =>
    intro row rowk k a hk hpre hnv hid
    cases k with
    | zero =>
      rw [List.getElem?_cons_zero] at hk
      obtain rfl : a0 = a := Option.some.inj hk
      simp only [List.take_zero, assignLit, Option.some.injEq] at hpre
      subst hpre
      cases hid0 : a0.id with
      | nil => exact absurd hid0 hid
      | cons c cs =>
        cases hv : a0.value with
        | Value v => exact absurd hv (hnv v)
        | Identifier nm => simp [applyAssignments, hid0, hv]
        | CompoundIdentifier ps => simp [applyAssignments, hid0, hv]
        | BinaryOp l op r => simp [applyAssignments, hid0, hv]
        | OtherExpr => simp [applyAssignments, hid0, hv]
    | succ k =>
      rw [List.getElem?_cons_succ] at hk
      simp only [List.take_succ_cons] at hpre
      cases hid0 : a0.id with
      | nil => cases hv : a0.value <;> simp [assignLit, hid0, hv] at hpre
      | cons c cs =>
        cases hv : a0.value with
        | Value v =>
          simp only [assignLit, hid0, hv] at hpre
          simp only [applyAssignments, hid0, hv]
          exact ih _ rowk k a hk hpre hnv hid
        | Identifier nm => simp [assignLit, hid0, hv] at hpre
        | CompoundIdentifier ps => simp [assignLit, hid0, hv] at hpre
        | BinaryOp l op r => simp [assignLit, hid0, hv] at hpre
        | OtherExpr => simp [assignLit, hid0, hv] at hpre

/-- Claim C7, amended: for an UPDATE whose predicate is `id` equality against
a number literal and whose table and row exist, assignments are applied in
order, overwriting the row's entries with no type check against the schema
(the conclusion holds for every schema `t.columns`); an assignment whose
value is a *literal* of an unrecognized variant (the NULL literal and every
other `Value` variant) degrades to `Null`; but an assignment whose value
expression is not a literal fails the statement with `Unsupported value`,
keeping the assignments already applied. -/
theorem update_assignments_spec (db : Database) (name : String) (t : Table)
    (asgs : List Assignment) (nstr : String) (row : Row)
    (hget : dbGet db name = some t)
    (hrow : btreeGet t.data (parseU32 nstr) = some row) :
    (updateValueOf .Null = Value.Null ∧ updateValueOf .OtherValue = Value.Null) ∧
    (∀ row' : Row, assignLit asgs row = some row' →
      process_command db (.Update ⟨.Table name, []⟩ asgs
          (some (.BinaryOp (.Identifier "id") .Eq (.Value (.Number nstr))))) =
        (.ok ("Updated row " ++ toString (parseU32 nstr)),
          dbInsert db name { t with data := btreeInsert t.data (parseU32 nstr) row' })) ∧
    (∀ (k : Nat) (a : Assignment) (rowk : Row),
      asgs[k]? = some a → assignLit (asgs.take k) row = some rowk →
      (∀ v, a.value ≠ .Value v) → a.id ≠ [] →
      process_command db (.Update ⟨.Table name, []⟩ asgs
          (some (.BinaryOp (.Identifier "id") .Eq (.Value (.Number nstr))))) =
        (.err "Unsupported value",
          dbInsert db name { t with data := btreeInsert t.data (parseU32 nstr) rowk })) := by
  have hlow : ¬ (toLowerStr "id" ≠ "id") := by decide
  have key : process_command db (.Update ⟨.Table name, []⟩ asgs
      (some (.BinaryOp (.Identifier "id") .Eq (.Value (.Number nstr))))) =
      (match applyAssignments asgs row with
       | (.ok _, row1) =>
         ((.ok ("Updated row " ++ toString (parseU32 nstr)) : ExecResult),
           dbInsert db name { t with data := btreeInsert t.data (parseU32 nstr) row1 })
       | (.err e, row1) =>
         (.err e, dbInsert db name { t with data := btreeInsert t.data (parseU32 nstr) row1 })
       | (.panic, row1) =>
         (.panic, dbInsert db name { t with data := btreeInsert t.data (parseU32 nstr) row1 })) := by
    show updateStmt db ⟨.Table name, []⟩ asgs
        (some (.BinaryOp (.Identifier "id") .Eq (.Value (.Number nstr)))) = _
    simp only [updateStmt, hget, if_neg hlow, hrow]
  refine ⟨⟨rfl, rfl⟩, ?_, ?_⟩
  · intro row' h
    rw [key, applyAssignments_all_lit asgs row row' h]
  · intro k a rowk hk hpre hnv hid
    rw [key, applyAssignments_first_nonlit asgs row rowk k a hk hpre hnv hid]

/-- Witness for `update_assignments_spec` on `exDbT2` / table `exT2`, row 1,
with the single assignment `a = NULL` (an `Expr::Value` literal): the
statement succeeds and stores `Null` without any type check. -/
theorem update_assignments_spec_witness :
    (updateValueOf .Null = Value.Null ∧ updateValueOf .OtherValue = Value.Null) ∧
    (∀ row' : Row, assignLit [⟨["a"], .Value .Null⟩] ⟨1, [("a", .Integer 5)]⟩ = some row' →
      process_command exDbT2 (.Update ⟨.Table "t2", []⟩ [⟨["a"], .Value .Null⟩]
          (some (.BinaryOp (.Identifier "id") .Eq (.Value (.Number "1"))))) =
        (.ok ("Updated row " ++ toString (parseU32 "1")),
          dbInsert exDbT2 "t2" { exT2 with data := btreeInsert exT2.data (parseU32 "1") row' })) ∧
    (∀ (k : Nat) (a : Assignment) (rowk : Row),
      [(⟨["a"], .Value .Null⟩ : Assignment)][k]? = some a →
      assignLit ([(⟨["a"], .Value .Null⟩ : Assignment)].take k) ⟨1, [("a", .Integer 5)]⟩ = some rowk →
      (∀ v, a.value ≠ .Value v) → a.id ≠ [] →
      process_command exDbT2 (.Update ⟨.Table "t2", []⟩ [⟨["a"], .Value .Null⟩]
          (some (.BinaryOp (.Identifier "id") .Eq (.Value (.Number "1"))))) =
        (.err "Unsupported value",
          dbInsert exDbT2 "t2" { exT2 with data := btreeInsert exT2.data (parseU32 "1") rowk })) :=
  update_assignments_spec exDbT2 "t2" exT2 [⟨["a"], .Value .Null⟩] "1"
    ⟨1, [("a", .Integer 5)]⟩ (by decide) (by decide)

/-! ### INSERT: the unique-constraint scan -/

theorem uniqueViolation_isSome_iff (ucs : List String) (rd : List (String × Value))
    (data : List (Nat × Row)) :
    (uniqueViolation ucs rd data).isSome ↔
      ∃ uc ∈ ucs, ∃ v, assocGet rd uc = some v ∧
        ∃ p ∈ data, assocGet p.2.data uc = some v := by
  induction ucs with
  | nil => simp [uniqueViolation]
  | cons uc rest ih =>
    have hpred : ∀ p : Nat × Row, ∀ w : Value, ((match assocGet p.2.data uc with
        | some ev => decide (ev = w)
        | none => false) = true) ↔ assocGet p.2.data uc = some w := by
      intro p w
      cases hp : assocGet p.2.data uc with
      | none => simp
      | some ev => simp
    cases hg : assocGet rd uc with
    | none =>
      simp only [uniqueViolation, hg]
      rw [ih]
      constructor
      · rintro ⟨u, hu, rest⟩
        exact ⟨u, List.mem_cons_of_mem _ hu, rest⟩
      · rintro ⟨u, hu, v, hv, p, hp, hpv⟩
        rcases List.mem_cons.mp hu with rfl | hu1
        · rw [hg] at hv; cases hv
        · exact ⟨u, hu1, v, hv, p, hp, hpv⟩
    | some newVal =>
      by_cases hd : data.any (fun p =>
          match assocGet p.2.data uc with
          | some ev => decide (ev = newVal)
          | none => false) = true
      · simp only [uniqueViolation, hg, if_pos hd, Option.isSome_some, true_iff]
        obtain ⟨p, hpmem, hf⟩ := List.any_eq_true.mp hd
        exact ⟨uc, List.mem_cons_self _ _, newVal, hg, p, hpmem, (hpred p newVal).mp hf⟩
      · simp only [uniqueViolation, hg, if_neg hd]
        rw [ih]
        constructor
        · rintro ⟨u, hu, rest⟩
          exact ⟨u, List.mem_cons_of_mem _ hu, rest⟩
        · rintro ⟨u, hu, v, hv, p, hp, hpv⟩
          rcases List.mem_cons.mp hu with rfl | hu1
          · rw [hg] at hv
            obtain rfl : newVal = v := Option.some.inj hv
            exact absurd (List.any_eq_true.mpr ⟨p, hp, (hpred p newVal).mpr hpv⟩) hd
          · exact ⟨u, hu1, v, hv, p, hp, hpv⟩

/-- Claim C1, amended: a single-row INSERT into an existing table whose row
passes conversion and the type check fails if and only if, for some
unique-flagged column, the new row supplies a value (Null included) equal —
under the derived structural equality, where `Null == Null` holds — to the
value some existing row holds in that column. In particular inserting Null
into a unique column *does* collide with a stored Null. -/
theorem insert_unique_violation_iff (db : Database) (name : String) (t : Table)
    (exprs : List Expr) (rd : List (String × Value))
    (hget : dbGet db name = some t)
    (hb : buildRowData exprs t.columns [] = .ok rd) :
    (∃ msg, (process_command db (.Insert name ⟨.Values [exprs]⟩)).1 = .err msg) ↔
      ∃ uc ∈ t.unique_columns, ∃ v, assocGet rd uc = some v ∧
        ∃ p ∈ t.data, assocGet p.2.data uc = some v := by
  cases hu : uniqueViolation t.unique_columns rd t.data with
  | some m =>
    have h1 : (process_command db (.Insert name ⟨.Values [exprs]⟩)).1 = .err m := by
      show (insertStmt db name ⟨.Values [exprs]⟩).1 = _
      simp only [insertStmt, hget, insertRows, insertRow, hb, hu]
    refine iff_of_true ⟨m, h1⟩ ?_
    have : (uniqueViolation t.unique_columns rd t.data).isSome := by rw [hu]; rfl
    exact (uniqueViolation_isSome_iff _ _ _).mp this
  | none =>
    have h1 : (process_command db (.Insert name ⟨.Values [exprs]⟩)).1 =
        .ok ("Inserted " ++ toString 1 ++ " rows") := by
      show (insertStmt db name ⟨.Values [exprs]⟩).1 = _
      simp only [insertStmt, hget, insertRows, insertRow, hb, hu]
    refine iff_of_false ?_ ?_
    · rintro ⟨msg, hmsg⟩
      rw [h1] at hmsg
      cases hmsg
    · intro hex
      have h2 := (uniqueViolation_isSome_iff t.unique_columns rd t.data).mpr hex
      rw [hu] at h2
      cases h2

/-- The table of `exDbNull`: `t(u INT UNIQUE)` with one row where `u` is Null. -/
def exTNull : Table :=
  { name := "t", columns := [("u", "Integer")], unique_columns := ["u"],
    data := [(1, ⟨1, [("u", .Null)]⟩)], last_id := 1 }

/-- Witness for `insert_unique_violation_iff` at `exDbNull` inserting `(NULL)`
into `t(u INT UNIQUE)`: both sides of the equivalence hold (the stored Null
collides with the inserted Null). -/
theorem insert_unique_violation_iff_witness :
    (∃ msg, (process_command exDbNull (.Insert "t" ⟨.Values [[Expr.Value .Null]]⟩)).1 = .err msg) ↔
      ∃ uc ∈ exTNull.unique_columns, ∃ v, assocGet [("u", Value.Null)] uc = some v ∧
        ∃ p ∈ exTNull.data, assocGet p.2.data uc = some v :=
  insert_unique_violation_iff exDbNull "t" exTNull [.Value .Null] [("u", Value.Null)]
    (by decide) (by rfl)

/-! ### SELECT: join characterization and rendering -/

theorem btreeValues_map_id (m : List (Nat × Row)) (h : ∀ p ∈ m, p.2.id = p.1) :
    (btreeValues m).map Row.id = m.map fun p => p.1 := by
  induction m with
  | nil => rfl
  | cons p rest ih =>
    show p.2.id :: (btreeValues rest).map Row.id = p.1 :: rest.map fun p => p.1
    rw [h p (List.mem_cons_self _ _)]
    exact congrArg _ (ih fun q hq => h q (List.mem_cons_of_mem _ hq))

theorem filterMap_join_inner (lt rt : Table) (lc rc : String) (lrow : Row) (rs : List Row) :
    (rs.filterMap fun rrow =>
      let lval := (assocGet lrow.data lc).getD Value.Null
      let rval := (assocGet rrow.data rc).getD Value.Null
      if lval ≠ Value.Null ∧ lval = rval then some (joinRowLine lt rt lrow rrow) else none) =
    ((rs.map fun rrow => (lrow, rrow)).filter fun pr =>
        decide ((assocGet pr.1.data lc).getD .Null ≠ .Null ∧
          (assocGet pr.1.data lc).getD .Null = (assocGet pr.2.data rc).getD .Null)).map
      fun pr => joinRowLine lt rt pr.1 pr.2 := by
  induction rs with
  | nil => rfl
  | cons rrow rest ih =>
    by_cases hp : (assocGet lrow.data lc).getD .Null ≠ .Null ∧
        (assocGet lrow.data lc).getD .Null = (assocGet rrow.data rc).getD .Null
    · simp [List.filterMap_cons, List.filter_cons, if_pos hp, decide_eq_true hp, ih]
    · simp [List.filterMap_cons, List.filter_cons, if_neg hp, decide_eq_false hp, ih]

theorem joinDataLines_eq_product (lt rt : Table) (lc rc : String) :
    joinDataLines lt rt lc rc =
      (((btreeValues lt.data).product (btreeValues rt.data)).filter fun pr =>
          decide ((assocGet pr.1.data lc).getD .Null ≠ .Null ∧
            (assocGet pr.1.data lc).getD .Null = (assocGet pr.2.data rc).getD .Null)).map
        fun pr => joinRowLine lt rt pr.1 pr.2 := by
  show (btreeValues lt.data).flatMap _ = _
  generalize btreeValues rt.data = rs
  induction btreeValues lt.data with
  | nil => rfl
  | cons lrow rest ih =>
    have hprod : (lrow :: rest).product rs =
        (rs.map fun rrow => (lrow, rrow)) ++ rest.product rs := rfl
    rw [List.flatMap_cons, filterMap_join_inner lt rt lc rc lrow rs, ih, hprod,
      List.filter_append, List.map_append]

/-- Claim C8: a SELECT with a join over two existing tables emits exactly the
nested-loop cross product of left rows (data order) × right rows (data
order), keeping a pair iff the left join-key value is non-Null and equal to
the right one; a row with Null (or missing) join key matches nothing. With
the key-order hypotheses (rows sorted by id, row ids equal to their keys),
both row streams are in ascending id order. Only the first join is examined
(`jrest` is ignored), as is the projection. -/
theorem join_nested_loop_spec (db : Database) (proj : List SelectItem)
    (leftName rightName : String) (lt rt : Table) (lexp rexp : Expr) (lc rc : String)
    (jrest : List Join) (frest : List TableWithJoins)
    (hl : dbGet db leftName = some lt)
    (hr : dbGet db rightName = some rt)
    (hlc : extract_col lexp = some lc)
    (hrc : extract_col rexp = some rc)
    (hls : List.Chain' (· < ·) (lt.data.map fun p => p.1))
    (hlid : ∀ p ∈ lt.data, p.2.id = p.1)
    (hrs : List.Chain' (· < ·) (rt.data.map fun p => p.1))
    (hrid : ∀ p ∈ rt.data, p.2.id = p.1) :
    queryStmt db ⟨.Select ⟨proj,
        ⟨.Table leftName,
          ⟨.Table rightName, .Inner (.On (.BinaryOp lexp .Eq rexp))⟩ :: jrest⟩ :: frest⟩⟩ =
      .ok (String.intercalate "\n"
        (String.intercalate " | "
            ((lt.columns.map fun c => leftName ++ "." ++ c.1) ++
             (rt.columns.map fun c => rightName ++ "." ++ c.1)) ::
          (((btreeValues lt.data).product (btreeValues rt.data)).filter fun pr =>
              decide ((assocGet pr.1.data lc).getD .Null ≠ .Null ∧
                (assocGet pr.1.data lc).getD .Null = (assocGet pr.2.data rc).getD .Null)).map
            fun pr => joinRowLine lt rt pr.1 pr.2)) ∧
    (∀ pr ∈ ((btreeValues lt.data).product (btreeValues rt.data)).filter fun pr =>
        decide ((assocGet pr.1.data lc).getD .Null ≠ .Null ∧
          (assocGet pr.1.data lc).getD .Null = (assocGet pr.2.data rc).getD .Null),
      (assocGet pr.1.data lc).getD .Null ≠ .Null) ∧
    List.Chain' (· < ·) ((btreeValues lt.data).map Row.id) ∧
    List.Chain' (· < ·) ((btreeValues rt.data).map Row.id) := by
  refine ⟨?_, ?_, ?_, ?_⟩
  · show queryStmt db _ = _
    simp only [queryStmt, hl, selectJoin, joinCols, hr, hlc, hrc,
      joinDataLines_eq_product]
  · intro pr hpr
    have h := (List.mem_filter.mp hpr).2
    exact (of_decide_eq_true h).1
  · rw [btreeValues_map_id lt.data hlid]; exact hls
  · rw [btreeValues_map_id rt.data hrid]; exact hrs

/-- The tables of `exDbJoin`. -/
def exTA : Table :=
  { name := "a", columns := [("x", "Integer")], unique_columns := [],
    data := [(1, ⟨1, [("x", .Integer 1)]⟩)], last_id := 1 }

def exTB : Table :=
  { name := "b", columns := [("y", "Integer")], unique_columns := [],
    data := [(1, ⟨1, [("y", .Integer 1)]⟩)], last_id := 1 }

/-- Witness for `join_nested_loop_spec` on `exDbJoin` with
`SELECT * FROM a JOIN b ON x = y`. -/
theorem join_nested_loop_spec_witness :
    queryStmt exDbJoin ⟨.Select ⟨[.Wildcard],
        ⟨.Table "a",
          ⟨.Table "b", .Inner (.On (.BinaryOp (.Identifier "x") .Eq (.Identifier "y")))⟩ :: []⟩ :: []⟩⟩ =
      .ok (String.intercalate "\n"
        (String.intercalate " | "
            ((exTA.columns.map fun c => "a" ++ "." ++ c.1) ++
             (exTB.columns.map fun c => "b" ++ "." ++ c.1)) ::
          (((btreeValues exTA.data).product (btreeValues exTB.data)).filter fun pr =>
              decide ((assocGet pr.1.data "x").getD .Null ≠ .Null ∧
                (assocGet pr.1.data "x").getD .Null = (assocGet pr.2.data "y").getD .Null)).map
            fun pr => joinRowLine exTA exTB pr.1 pr.2)) ∧
    (∀ pr ∈ ((btreeValues exTA.data).product (btreeValues exTB.data)).filter fun pr =>
        decide ((assocGet pr.1.data "x").getD .Null ≠ .Null ∧
          (assocGet pr.1.data "x").getD .Null = (assocGet pr.2.data "y").getD .Null),
      (assocGet pr.1.data "x").getD .Null ≠ .Null) ∧
    List.Chain' (· < ·) ((btreeValues exTA.data).map Row.id) ∧
    List.Chain' (· < ·) ((btreeValues exTB.data).map Row.id) :=
  join_nested_loop_spec exDbJoin [.Wildcard] "a" "b" exTA exTB
    (.Identifier "x") (.Identifier "y") "x" "y" [] []
    (by decide) (by decide) rfl rfl (by simp [exTA]) (by decide) (by simp [exTB]) (by decide)

/-- Claim C5, amended: for a successful SELECT *without* a join, each cell is
rendered with integers and floats in decimal form, booleans as `true`/`false`,
text verbatim and Null as `NULL`, and the data rows are emitted in ascending
row-id order after the header. (With a join, cells are instead rendered in
Rust's `{:?}` Debug form — see the counterexample.) -/
theorem select_rendering_spec (t : Table) (proj : List SelectItem) (targets : List String)
    (ht : computeTargets (t.columns.map fun c => c.1) proj [] = .ok targets)
    (hs : List.Chain' (· < ·) (t.data.map fun p => p.1))
    (hid : ∀ p ∈ t.data, p.2.id = p.1) :
    selectNoJoin t proj =
      .ok (String.intercalate "\n"
        (("ID | " ++ String.intercalate " | " targets) ::
          (btreeValues t.data).map (selectRowLine targets))) ∧
    List.Chain' (· < ·) ((btreeValues t.data).map Row.id) ∧
    (∀ row : Row, selectRowLine targets row =
      toString row.id ++ "  | " ++ String.intercalate " | "
        (targets.map fun c => displayValue ((assocGet row.data c).getD .Null))) ∧
    (∀ i : Int, displayValue (.Integer i) = toString i) ∧
    (∀ q : ℚ, displayValue (.Float q) = floatToString q) ∧
    (∀ s : String, displayValue (.Text s) = s) ∧
    (∀ b : Bool, displayValue (.Bool b) = if b then "true" else "false") ∧
    displayValue .Null = "NULL" := by
  refine ⟨?_, ?_, fun row => rfl, fun i => rfl, fun q => rfl, fun s => rfl,
    fun b => rfl, rfl⟩
  · show selectNoJoin t proj = _
    simp only [selectNoJoin, ht]
  · rw [btreeValues_map_id t.data hid]; exact hs

/-- Witness for `select_rendering_spec`: `SELECT * FROM t2` on the table
`exT2` (one row, `a = 5`). -/
theorem select_rendering_spec_witness :
    selectNoJoin exT2 [.Wildcard] =
      .ok (String.intercalate "\n"
        (("ID | " ++ String.intercalate " | " ["a"]) ::
          (btreeValues exT2.data).map (selectRowLine ["a"]))) ∧
    List.Chain' (· < ·) ((btreeValues exT2.data).map Row.id) ∧
    (∀ row : Row, selectRowLine ["a"] row =
      toString row.id ++ "  | " ++ String.intercalate " | "
        (["a"].map fun c => displayValue ((assocGet row.data c).getD .Null))) ∧
    (∀ i : Int, displayValue (.Integer i) = toString i) ∧
    (∀ q : ℚ, displayValue (.Float q) = floatToString q) ∧
    (∀ s : String, displayValue (.Text s) = s) ∧
    (∀ b : Bool, displayValue (.Bool b) = if b then "true" else "false") ∧
    displayValue .Null = "NULL" :=
  select_rendering_spec exT2 [.Wildcard] ["a"] (by rfl) (by simp [exT2]) (by decide)

/-! ### The typing invariant (claim C3) -/

/-- Propositional form of `wellTypedEntry`. -/
def EntryOk (cols : List (String × String)) (k : String) (v : Value) : Prop :=
  (∃ ty, (k, ty) ∈ cols) → ∃ ty, (k, ty) ∈ cols ∧ typeCheckOk ty v = true

/-- Propositional form of `tableTyped`. -/
def TableTypedP (t : Table) : Prop :=
  ∀ p ∈ t.data, ∀ kv ∈ p.2.data, EntryOk t.columns kv.1 kv.2

/-- Propositional form of `dbTyped`. -/
def DBTypedP (db : Database) : Prop := ∀ p ∈ db.tables, TableTypedP p.2

theorem wellTypedEntry_iff (cols : List (String × String)) (k : String) (v : Value) :
    wellTypedEntry cols k v = true ↔ EntryOk cols k v := by
  unfold wellTypedEntry EntryOk
  rw [Bool.or_eq_true, List.all_eq_true, List.any_eq_true]
  constructor
  · rintro (hall | ⟨c, hc, hcv⟩)
    · rintro ⟨ty, hty⟩
      have := hall (k, ty) hty
      simp at this
    · rw [Bool.and_eq_true] at hcv
      intro _
      refine ⟨c.2, ?_, hcv.2⟩
      have h1 : c.1 = k := by simpa using hcv.1
      rw [← h1]
      exact hc
  · intro hok
    by_cases hex : ∃ ty, (k, ty) ∈ cols
    · obtain ⟨ty, hty, htc⟩ := hok hex
      right
      exact ⟨(k, ty), hty, by simp [htc]⟩
    · left
      intro c hc
      simp only [bne_iff_ne, ne_eq]
      intro h1
      exact hex ⟨c.2, by rw [← h1]; exact hc⟩

theorem tableTyped_iff (t : Table) : tableTyped t = true ↔ TableTypedP t := by
  unfold tableTyped TableTypedP
  rw [List.all_eq_true]
  constructor
  · intro hall p hp kv hkv
    have := hall p hp
    rw [List.all_eq_true] at this
    exact (wellTypedEntry_iff _ _ _).mp (this kv hkv)
  · intro hp p hmem
    rw [List.all_eq_true]
    intro kv hkv
    exact (wellTypedEntry_iff _ _ _).mpr (hp p hmem kv hkv)

theorem dbTyped_iff (db : Database) : dbTyped db = true ↔ DBTypedP db := by
  unfold dbTyped DBTypedP
  rw [List.all_eq_true]
  constructor
  · intro hall p hp
    exact (tableTyped_iff _).mp (hall p hp)
  · intro hp p hmem
    exact (tableTyped_iff _).mpr (hp p hmem)

theorem assocGet_mem {α : Type} (m : List (String × α)) (k : String) (v : α)
    (h : assocGet m k = some v) : (k, v) ∈ m := by
  induction m with
  | nil => simp [assocGet] at h
  | cons p rest ih =>
    by_cases hp : p.1 = k
    · simp only [assocGet, if_pos hp] at h
      cases h
      have : p = (k, p.2) := by rw [← hp]
      rw [← this]
      exact List.mem_cons_self _ _
    · simp only [assocGet, if_neg hp] at h
      exact List.mem_cons_of_mem _ (ih h)

theorem dbInsert_forall {P : Table → Prop} (db : Database) (name : String) (tNew : Table)
    (hdb : ∀ p ∈ db.tables, P p.2) (hnew : P tNew) :
    ∀ p ∈ (dbInsert db name tNew).tables, P p.2 := by
  intro p hp
  rcases mem_assocInsert _ _ _ p hp with rfl | hpm
  · exact hnew
  · exact hdb p hpm

theorem buildRowData_typed (COLS : List (String × String)) :
    ∀ (exprs : List Expr) (cols : List (String × String)) (acc rd : List (String × Value)),
    buildRowData exprs cols acc = .ok rd →
    (∀ c ∈ cols, c ∈ COLS) →
    (∀ kv ∈ acc, EntryOk COLS kv.1 kv.2) →
    ∀ kv ∈ rd, EntryOk COLS kv.1 kv.2 := by
  intro exprs
  induction exprs with
  | nil =>
    intro cols acc rd h _ hacc
    simp only [buildRowData, Except.ok.injEq] at h
    subst h
    exact hacc
  | cons e es ih =>
    intro cols acc rd h hsub hacc
    cases cols with
    | nil => simp [buildRowData] at h
    | cons c cs =>
      simp only [buildRowData] at h
      cases hc : convertExpr e with
      | error m => simp only [hc] at h; exact Except.noConfusion h
      | ok v =>
        simp only [hc] at h
        by_cases htc : typeCheckOk c.2 v = true
        · rw [if_pos htc] at h
          refine ih cs (assocInsert acc c.1 v) rd h
            (fun c1 hc1 => hsub c1 (List.mem_cons_of_mem _ hc1)) ?_
          intro kv hkv
          rcases mem_assocInsert _ _ _ kv hkv with rfl | hkv1
          · intro _
            refine ⟨c.2, ?_, htc⟩
            have : (c.1, c.2) = c := rfl
            rw [this]
            exact hsub c (List.mem_cons_self _ _)
          · exact hacc kv hkv1
        · rw [if_neg htc] at h
          simp at h

/-- The shape of a successful one-row insertion (shared by several proofs). -/
theorem insertRow_shape (t : Table) (r : List Expr) (t1 : Table)
    (h : insertRow t r = .ok t1) :
    ∃ (rd : List (String × Value)) (rowId : Nat),
      buildRowData r t.columns [] = .ok rd ∧
      t1 = { t with last_id := max t.last_id rowId,
                    data := btreeInsert t.data rowId ⟨rowId, rd⟩ } := by
  unfold insertRow at h
  cases hb : buildRowData r t.columns [] with
  | error e => simp only [hb] at h; exact Except.noConfusion h
  | ok rd =>
    simp only [hb] at h
    cases hu : uniqueViolation t.unique_columns rd t.data with
    | some m => simp only [hu] at h; exact Except.noConfusion h
    | none =>
      simp only [hu, Except.ok.injEq] at h
      refine ⟨rd,
        (match assocGet rd "id" with
         | some (.Integer pid) => (pid % (2 ^ 32 : Int)).toNat
         | _ => (t.last_id + 1) % 2 ^ 32), rfl, ?_⟩
      rw [← h]
      by_cases hgt :
          (match assocGet rd "id" with
           | some (.Integer pid) => (pid % (2 ^ 32 : Int)).toNat
           | _ => (t.last_id + 1) % 2 ^ 32) > t.last_id
      · rw [if_pos hgt, Nat.max_eq_right (Nat.le_of_lt hgt)]
      · rw [if_neg hgt, Nat.max_eq_left (Nat.not_lt.mp hgt)]

theorem insertRow_typed (t : Table) (r : List Expr) (t1 : Table)
    (h : insertRow t r = .ok t1) (ht : TableTypedP t) :
    TableTypedP t1 ∧ t1.columns = t.columns ∧ t.last_id ≤ t1.last_id ∧
    ((∀ q ∈ t.data, q.1 ≤ t.last_id) → ∀ q ∈ t1.data, q.1 ≤ t1.last_id) := by
  obtain ⟨rd, rowId, hb, rfl⟩ := insertRow_shape t r t1 h
  refine ⟨?_, rfl, Nat.le_max_left _ _, ?_⟩
  · intro p hp kv hkv
    rcases mem_btreeInsert _ _ _ p hp with rfl | hpm
    · exact buildRowData_typed t.columns r t.columns [] rd hb
        (fun c hc => hc) (fun kv hkv => by simp at hkv) kv hkv
    · exact ht p hpm kv hkv
  · intro hbound q hq
    rcases mem_btreeInsert _ _ _ q hq with rfl | hqm
    · exact Nat.le_max_right _ _
    · exact Nat.le_trans (hbound q hqm) (Nat.le_max_left _ _)

theorem insertRows_typed (rows : List (List Expr)) :
    ∀ (t : Table) (c : Nat) (res : Except String Nat) (t1 : Table),
    insertRows t rows c = (res, t1) → TableTypedP t →
    TableTypedP t1 ∧ t1.columns = t.columns ∧ t.last_id ≤ t1.last_id ∧
    ((∀ q ∈ t.data, q.1 ≤ t.last_id) → ∀ q ∈ t1.data, q.1 ≤ t1.last_id) := by
  induction rows with
  | nil =>
    intro t c res t1 h ht
    simp only [insertRows, Prod.mk.injEq] at h
    rw [← h.2]
    exact ⟨ht, rfl, Nat.le_refl _, fun hb => hb⟩
  | cons r rs ih =>
    intro t c res t1 h ht
    simp only [insertRows] at h
    cases hr : insertRow t r with
    | error e =>
      rw [hr] at h
      simp only [Prod.mk.injEq] at h
      rw [← h.2]
      exact ⟨ht, rfl, Nat.le_refl _, fun hb => hb⟩
    | ok tmid =>
      rw [hr] at h
      obtain ⟨h1, h2, h3, h4⟩ := insertRow_typed t r tmid hr ht
      obtain ⟨g1, g2, g3, g4⟩ := ih tmid (c + 1) res t1 h h1
      exact ⟨g1, g2.trans h2, Nat.le_trans h3 g3, fun hb => g4 (h4 hb)⟩

/-- Every statement other than UPDATE preserves the typing invariant. -/
theorem process_typed (db : Database) (stmt : Stmt) (hnu : isUpdate stmt = false)
    (h : DBTypedP db) : DBTypedP (process_command db stmt).2 := by
  cases stmt with
  | OtherStmt => exact h
  | Query q => exact h
  | Update table asgs sel => simp [isUpdate] at hnu
  | CreateTable name cols =>
    show DBTypedP (createTable db name cols).2
    unfold createTable
    by_cases hc : dbContains db name = true
    · rw [if_pos hc]; exact h
    · rw [if_neg hc]
      cases hbc : buildColumns cols with
      | error e => exact h
      | ok cu =>
        exact dbInsert_forall db name _ h
          (fun p hp => absurd hp (List.not_mem_nil p))
  | Insert name source =>
    show DBTypedP (insertStmt db name source).2
    unfold insertStmt
    cases hget : dbGet db name with
    | none => exact h
    | some t =>
      simp only []
      cases source with
      | mk body =>
        cases body with
        | Select s => exact h
        | OtherSetExpr => exact h
        | Values rows =>
          simp only []
          have htt : TableTypedP t := h (name, t) (assocGet_mem _ _ _ hget)
          cases hrows : insertRows t rows 0 with
          | mk res t1 =>
            obtain ⟨h1, _, _, _⟩ := insertRows_typed rows t 0 res t1 hrows htt
            cases res with
            | ok c => exact dbInsert_forall db name t1 h h1
            | error e => exact dbInsert_forall db name t1 h h1
  | Delete from_ tables selection =>
    show DBTypedP (deleteStmt db from_ tables selection).2
    unfold deleteStmt
    cases from_ with
    | nil =>
      cases tables with
      | nil => exact h
      | cons n ns =>
        simp only []
        cases hget : dbGet db n with
        | none => exact h
        | some t =>
          simp only []
          have htt : TableTypedP t := h (n, t) (assocGet_mem _ _ _ hget)
          cases selection with
          | none => exact h
          | some sel =>
            cases sel with
            | Value v => exact h
            | Identifier i => exact h
            | CompoundIdentifier ps => exact h
            | OtherExpr => exact h
            | BinaryOp l op r =>
              cases op with
              | OtherOp => exact h
              | Eq =>
                cases l with
                | Value v => exact h
                | CompoundIdentifier ps => exact h
                | BinaryOp l2 op2 r2 => exact h
                | OtherExpr => exact h
                | Identifier i =>
                  simp only []
                  by_cases hid : toLowerStr i ≠ "id"
                  · rw [if_pos hid]; exact h
                  · rw [if_neg hid]
                    cases r with
                    | Identifier j => exact h
                    | CompoundIdentifier ps => exact h
                    | BinaryOp l2 op2 r2 => exact h
                    | OtherExpr => exact h
                    | Value v =>
                      cases v with
                      | SingleQuotedString s => exact h
                      | Boolean b => exact h
                      | Null => exact h
                      | OtherValue => exact h
                      | Number nn =>
                        simp only []
                        cases hrow : btreeGet t.data (parseU32 nn) with
                        | none => exact h
                        | some row =>
                          exact dbInsert_forall db n _ h
                            (fun p hp kv hkv => htt p (mem_btreeRemove _ _ p hp) kv hkv)
    | cons twj rest =>
      simp only []
      cases hrel : twj.relation with
      | OtherFactor => exact h
      | Table n =>
        simp only []
        cases hget : dbGet db n with
        | none => exact h
        | some t =>
          simp only []
          have htt : TableTypedP t := h (n, t) (assocGet_mem _ _ _ hget)
          cases selection with
          | none => exact h
          | some sel =>
            cases sel with
            | Value v => exact h
            | Identifier i => exact h
            | CompoundIdentifier ps => exact h
            | OtherExpr => exact h
            | BinaryOp l op r =>
              cases op with
              | OtherOp => exact h
              | Eq =>
                cases l with
                | Value v => exact h
                | CompoundIdentifier ps => exact h
                | BinaryOp l2 op2 r2 => exact h
                | OtherExpr => exact h
                | Identifier i =>
                  simp only []
                  by_cases hid : toLowerStr i ≠ "id"
                  · rw [if_pos hid]; exact h
                  · rw [if_neg hid]
                    cases r with
                    | Identifier j => exact h
                    | CompoundIdentifier ps => exact h
                    | BinaryOp l2 op2 r2 => exact h
                    | OtherExpr => exact h
                    | Value v =>
                      cases v with
                      | SingleQuotedString s => exact h
                      | Boolean b => exact h
                      | Null => exact h
                      | OtherValue => exact h
                      | Number nn =>
                        simp only []
                        cases hrow : btreeGet t.data (parseU32 nn) with
                        | none => exact h
                        | some row =>
                          exact dbInsert_forall db n _ h
                            (fun p hp kv hkv => htt p (mem_btreeRemove _ _ p hp) kv hkv)

/-- Claim C3, amended: in every database state reachable from the empty
database by CREATE TABLE, INSERT, SELECT and DELETE statements (no UPDATE),
every value stored under a column of its table's schema matches a declared
type of that column name or is Null. The UPDATE statement does not preserve
this invariant (see the counterexample). -/
theorem reachable_no_update_typed (db : Database) (h : ReachableNU db) :
    dbTyped db = true := by
  rw [dbTyped_iff]
  induction h with
  | empty => intro p hp; exact absurd hp (List.not_mem_nil p)
  | step db stmt hr hnu ih => exact process_typed db stmt hnu ih

/-- Witness for `reachable_no_update_typed`: the database built by
`CREATE TABLE t2 (a INT)` then `INSERT INTO t2 VALUES (5)` is reachable
without UPDATE and satisfies the typing invariant. -/
theorem reachable_no_update_typed_witness :
    ReachableNU exDbT2 ∧ dbTyped exDbT2 = true :=
  have hr : ReachableNU exDbT2 :=
    ReachableNU.step _ exInsertT2 (ReachableNU.step _ exCreateT2 ReachableNU.empty rfl) rfl
  ⟨hr, reachable_no_update_typed exDbT2 hr⟩

/-! ### The last_id invariant (claim C9) -/

/-- Every row key in every table is bounded by that table's `last_id`. -/
def KeyBoundP (db : Database) : Prop :=
  ∀ p ∈ db.tables, ∀ q ∈ p.2.data, q.1 ≤ p.2.last_id

theorem insertRow_keybound (t : Table) (r : List Expr) (t1 : Table)
    (h : insertRow t r = .ok t1) :
    t.last_id ≤ t1.last_id ∧
    ((∀ q ∈ t.data, q.1 ≤ t.last_id) → ∀ q ∈ t1.data, q.1 ≤ t1.last_id) := by
  obtain ⟨rd, rowId, _, rfl⟩ := insertRow_shape t r t1 h
  refine ⟨Nat.le_max_left _ _, fun hbound q hq => ?_⟩
  rcases mem_btreeInsert _ _ _ q hq with rfl | hqm
  · exact Nat.le_max_right _ _
  · exact Nat.le_trans (hbound q hqm) (Nat.le_max_left _ _)

theorem insertRows_keybound (rows : List (List Expr)) :
    ∀ (t : Table) (c : Nat) (res : Except String Nat) (t1 : Table),
    insertRows t rows c = (res, t1) →
    t.last_id ≤ t1.last_id ∧
    ((∀ q ∈ t.data, q.1 ≤ t.last_id) → ∀ q ∈ t1.data, q.1 ≤ t1.last_id) := by
  induction rows with
  | nil =>
    intro t c res t1 h
    simp only [insertRows, Prod.mk.injEq] at h
    rw [← h.2]
    exact ⟨Nat.le_refl _, fun hb => hb⟩
  | cons r rs ih =>
    intro t c res t1 h
    simp only [insertRows] at h
    cases hr : insertRow t r with
    | error e =>
      rw [hr] at h
      simp only [Prod.mk.injEq] at h
      rw [← h.2]
      exact ⟨Nat.le_refl _, fun hb => hb⟩
    | ok tmid =>
      rw [hr] at h
      obtain ⟨h1, h2⟩ := insertRow_keybound t r tmid hr
      obtain ⟨g1, g2⟩ := ih tmid (c + 1) res t1 h
      exact ⟨Nat.le_trans h1 g1, fun hb => g2 (h2 hb)⟩

theorem dbGet_dbInsert_cases (db : Database) (n name : String) (tNew t t' : Table)
    (h1 : dbGet db n = some t) (h2 : dbGet (dbInsert db name tNew) n = some t') :
    (n = name ∧ t' = tNew) ∨ t' = t := by
  by_cases hn : n = name
  · subst hn
    rw [show dbGet (dbInsert db n tNew) n = some tNew from assocGet_insert_self _ _ _] at h2
    exact .inl ⟨rfl, (Option.some.inj h2).symm⟩
  · right
    rw [show dbGet (dbInsert db name tNew) n = dbGet db n from
        assocGet_insert_ne _ _ _ _ hn, h1] at h2
    exact (Option.some.inj h2).symm

/-- One walk over all executor branches: each statement preserves the
key-bound invariant and never decreases the `last_id` of a surviving table. -/
theorem process_keybound_mono (db : Database) (stmt : Stmt) :
    (KeyBoundP db → KeyBoundP (process_command db stmt).2) ∧
    (∀ (n : String) (t t' : Table), dbGet db n = some t →
      dbGet (process_command db stmt).2 n = some t' → t.last_id ≤ t'.last_id) := by
  have terminal_id : (KeyBoundP db → KeyBoundP db) ∧
      (∀ (n : String) (t t' : Table), dbGet db n = some t →
        dbGet db n = some t' → t.last_id ≤ t'.last_id) := by
    refine ⟨fun hk => hk, fun n t t' h1 h2 => ?_⟩
    rw [h1] at h2
    rw [Option.some.inj h2]
  have terminal_ins : ∀ (name : String) (told tNew : Table),
      dbGet db name = some told → told.last_id ≤ tNew.last_id →
      ((∀ q ∈ told.data, q.1 ≤ told.last_id) → ∀ q ∈ tNew.data, q.1 ≤ tNew.last_id) →
      (KeyBoundP db → KeyBoundP (dbInsert db name tNew)) ∧
      (∀ (n : String) (t t' : Table), dbGet db n = some t →
        dbGet (dbInsert db name tNew) n = some t' → t.last_id ≤ t'.last_id) := by
    intro name told tNew hget hle hbnd
    constructor
    · intro hk
      exact dbInsert_forall (P := fun tb => ∀ q ∈ tb.data, q.1 ≤ tb.last_id)
        db name tNew hk (hbnd (hk (name, told) (assocGet_mem _ _ _ hget)))
    · intro n t t' h1 h2
      rcases dbGet_dbInsert_cases db n name tNew t t' h1 h2 with ⟨rfl, rfl⟩ | rfl
      · have ht : t = told := Option.some.inj (h1.symm.trans hget)
        rw [ht]
        exact hle
      · exact Nat.le_refl _
  have terminal_new : ∀ (name : String) (tNew : Table),
      dbGet db name = none →
      (∀ q ∈ tNew.data, q.1 ≤ tNew.last_id) →
      (KeyBoundP db → KeyBoundP (dbInsert db name tNew)) ∧
      (∀ (n : String) (t t' : Table), dbGet db n = some t →
        dbGet (dbInsert db name tNew) n = some t' → t.last_id ≤ t'.last_id) := by
    intro name tNew hnone hnew
    constructor
    · intro hk
      exact dbInsert_forall (P := fun tb => ∀ q ∈ tb.data, q.1 ≤ tb.last_id)
        db name tNew hk hnew
    · intro n t t' h1 h2
      rcases dbGet_dbInsert_cases db n name tNew t t' h1 h2 with ⟨rfl, rfl⟩ | rfl
      · rw [hnone] at h1
        cases h1
      · exact Nat.le_refl _
  cases stmt with
  | OtherStmt => exact terminal_id
  | Query q => exact terminal_id
  | CreateTable name cols =>
    show (KeyBoundP db → KeyBoundP (createTable db name cols).2) ∧
      (∀ (n : String) (t t' : Table), dbGet db n = some t →
        dbGet (createTable db name cols).2 n = some t' → t.last_id ≤ t'.last_id)
    unfold createTable
    by_cases hc : dbContains db name = true
    · rw [if_pos hc]; exact terminal_id
    · rw [if_neg hc]
      have hnone : dbGet db name = none := by
        unfold dbContains at hc
        cases hg : dbGet db name with
        | none => rfl
        | some t0 => rw [hg] at hc; simp at hc
      cases hbc : buildColumns cols with
      | error e => exact terminal_id
      | ok cu =>
        exact terminal_new name
          { name := name, columns := cu.1, unique_columns := cu.2, data := [], last_id := 0 }
          hnone (fun q hq => absurd hq (List.not_mem_nil q))
  | Insert name source =>
    show (KeyBoundP db → KeyBoundP (insertStmt db name source).2) ∧
      (∀ (n : String) (t t' : Table), dbGet db n = some t →
        dbGet (insertStmt db name source).2 n = some t' → t.last_id ≤ t'.last_id)
    unfold insertStmt
    cases hget : dbGet db name with
    | none => exact terminal_id
    | some t =>
      simp only []
      cases source with
      | mk body =>
        cases body with
        | Select s => exact terminal_id
        | OtherSetExpr => exact terminal_id
        | Values rows =>
          simp only []
          cases hrows : insertRows t rows 0 with
          | mk res t1 =>
            obtain ⟨h1, h2⟩ := insertRows_keybound rows t 0 res t1 hrows
            cases res with
            | ok c => exact terminal_ins name t t1 hget h1 h2
            | error e => exact terminal_ins name t t1 hget h1 h2
  | Delete from_ tables selection =>
    show (KeyBoundP db → KeyBoundP (deleteStmt db from_ tables selection).2) ∧
      (∀ (n : String) (t t' : Table), dbGet db n = some t →
        dbGet (deleteStmt db from_ tables selection).2 n = some t' → t.last_id ≤ t'.last_id)
    unfold deleteStmt
    cases from_ with
    | nil =>
      cases tables with
      | nil => exact terminal_id
      | cons n0 ns =>
        simp only []
        cases hget : dbGet db n0 with
        | none => exact terminal_id
        | some t =>
          simp only []
          cases selection with
          | none => exact terminal_id
          | some sel =>
            cases sel with
            | Value v => exact terminal_id
            | Identifier i => exact terminal_id
            | CompoundIdentifier ps => exact terminal_id
            | OtherExpr => exact terminal_id
            | BinaryOp l op r =>
              cases op with
              | OtherOp => exact terminal_id
              | Eq =>
                cases l with
                | Value v => exact terminal_id
                | CompoundIdentifier ps => exact terminal_id
                | BinaryOp l2 op2 r2 => exact terminal_id
                | OtherExpr => exact terminal_id
                | Identifier i =>
                  simp only []
                  by_cases hid : toLowerStr i ≠ "id"
                  · rw [if_pos hid]; exact terminal_id
                  · rw [if_neg hid]
                    cases r with
                    | Identifier j => exact terminal_id
                    | CompoundIdentifier ps => exact terminal_id
                    | BinaryOp l2 op2 r2 => exact terminal_id
                    | OtherExpr => exact terminal_id
                    | Value v =>
                      cases v with
                      | SingleQuotedString s => exact terminal_id
                      | Boolean b => exact terminal_id
                      | Null => exact terminal_id
                      | OtherValue => exact terminal_id
                      | Number nn =>
                        simp only []
                        cases hrow : btreeGet t.data (parseU32 nn) with
                        | none => exact terminal_id
                        | some row =>
                          exact terminal_ins n0 t _ hget (Nat.le_refl _)
                            (fun hb q hq => hb q (mem_btreeRemove _ _ q hq))
    | cons twj rest =>
      simp only []
      cases hrel : twj.relation with
      | OtherFactor => exact terminal_id
      | Table n0 =>
        simp only []
        cases hget : dbGet db n0 with
        | none => exact terminal_id
        | some t =>
          simp only []
          cases selection with
          | none => exact terminal_id
          | some sel =>
            cases sel with
            | Value v => exact terminal_id
            | Identifier i => exact terminal_id
            | CompoundIdentifier ps => exact terminal_id
            | OtherExpr => exact terminal_id
            | BinaryOp l op r =>
              cases op with
              | OtherOp => exact terminal_id
              | Eq =>
                cases l with
                | Value v => exact terminal_id
                | CompoundIdentifier ps => exact terminal_id
                | BinaryOp l2 op2 r2 => exact terminal_id
                | OtherExpr => exact terminal_id
                | Identifier i =>
                  simp only []
                  by_cases hid : toLowerStr i ≠ "id"
                  · rw [if_pos hid]; exact terminal_id
                  · rw [if_neg hid]
                    cases r with
                    | Identifier j => exact terminal_id
                    | CompoundIdentifier ps => exact terminal_id
                    | BinaryOp l2 op2 r2 => exact terminal_id
                    | OtherExpr => exact terminal_id
                    | Value v =>
                      cases v with
                      | SingleQuotedString s => exact terminal_id
                      | Boolean b => exact terminal_id
                      | Null => exact terminal_id
                      | OtherValue => exact terminal_id
                      | Number nn =>
                        simp only []
                        cases hrow : btreeGet t.data (parseU32 nn) with
                        | none => exact terminal_id
                        | some row =>
                          exact terminal_ins n0 t _ hget (Nat.le_refl _)
                            (fun hb q hq => hb q (mem_btreeRemove _ _ q hq))
  | Update table asgs selection =>
    show (KeyBoundP db → KeyBoundP (updateStmt db table asgs selection).2) ∧
      (∀ (n : String) (t t' : Table), dbGet db n = some t →
        dbGet (updateStmt db table asgs selection).2 n = some t' → t.last_id ≤ t'.last_id)
    unfold updateStmt
    cases table with
    | mk rel joins =>
      cases rel with
      | OtherFactor => exact terminal_id
      | Table name =>
        simp only []
        cases hget : dbGet db name with
        | none => exact terminal_id
        | some t =>
          simp only []
          cases selection with
          | none => exact terminal_id
          | some sel =>
            cases sel with
            | Value v => exact terminal_id
            | Identifier i => exact terminal_id
            | CompoundIdentifier ps => exact terminal_id
            | OtherExpr => exact terminal_id
            | BinaryOp l op r =>
              cases op with
              | OtherOp => exact terminal_id
              | Eq =>
                cases l with
                | Value v => exact terminal_id
                | CompoundIdentifier ps => exact terminal_id
                | BinaryOp l2 op2 r2 => exact terminal_id
                | OtherExpr => exact terminal_id
                | Identifier i =>
                  simp only []
                  by_cases hid : toLowerStr i ≠ "id"
                  · rw [if_pos hid]; exact terminal_id
                  · rw [if_neg hid]
                    cases r with
                    | Identifier j => exact terminal_id
                    | CompoundIdentifier ps => exact terminal_id
                    | BinaryOp l2 op2 r2 => exact terminal_id
                    | OtherExpr => exact terminal_id
                    | Value v =>
                      cases v with
                      | SingleQuotedString s => exact terminal_id
                      | Boolean b => exact terminal_id
                      | Null => exact terminal_id
                      | OtherValue => exact terminal_id
                      | Number nn =>
                        simp only []
                        cases hrow : btreeGet t.data (parseU32 nn) with
                        | none => exact terminal_id
                        | some row =>
                          simp only []
                          have hkey : (parseU32 nn, row) ∈ t.data :=
                            btreeGet_mem _ _ _ hrow
                          cases happ : applyAssignments asgs row with
                          | mk res row1 =>
                            have hterm := terminal_ins name t
                              { t with data := btreeInsert t.data (parseU32 nn) row1 }
                              hget (Nat.le_refl _)
                              (fun hb q hq => by
                                rcases mem_btreeInsert _ _ _ q hq with rfl | hqm
                                · exact hb (parseU32 nn, row) hkey
                                · exact hb q hqm)
                            cases res with
                            | ok m => exact hterm
                            | err m => exact hterm
                            | panic => exact hterm

/-- Claim C9: in every database state reachable from the empty database,
every table's `last_id` is at least every row id present in it; and no
executor statement (DELETE included) ever decreases the `last_id` of a table
that exists before and after it. -/
theorem last_id_bound_and_monotone :
    (∀ db : Database, Reachable db →
      ∀ p ∈ db.tables, ∀ q ∈ p.2.data, q.1 ≤ p.2.last_id) ∧
    (∀ (db : Database) (stmt : Stmt) (n : String) (t t' : Table),
      dbGet db n = some t → dbGet (process_command db stmt).2 n = some t' →
      t.last_id ≤ t'.last_id) := by
  constructor
  · intro db h
    induction h with
    | empty => intro p hp; exact absurd hp (List.not_mem_nil p)
    | step db stmt hr ih => exact (process_keybound_mono db stmt).1 ih
  · intro db stmt n t t' h1 h2
    exact (process_keybound_mono db stmt).2 n t t' h1 h2

end RustSqlite
